import Mathlib

/-!
Verification development for the office-cmdlet-updater markdown pipeline
(`src/tools/office-cmdlet-updater/services/markdown.service.js`).

The service is embedded as a deterministic state machine: external effects
(dependency installer, filesystem, PowerShell refresh tool, log reads) are
resolved by an `Env` of outcome functions, and every observable action is
recorded in an event trace carried by the state.  The file filter
(`addMdFilesInQueue` and its `isContainTag` closure) is embedded as pure
functions over file contents given as lists of lines.
-/

deriving instance DecidableEq for Except

namespace MarkdownService

/-- A document group descriptor, `{ name, path, metaTags }` in the source. -/
structure Doc where
  name : String
  path : String
  metaTags : List String
deriving DecidableEq, Repr

/-- A queue task, `{ file, doc }` in the source. -/
structure Task where
  file : String
  doc : Doc
deriving DecidableEq, Repr

/-- The `markdownErrors` constants referenced by the source
(`CANT_CREATE_TEMP_FOLDER`, `CANT_COPY_MD_FILE`, `CANT_OPEN_LOG_FILE`),
plus `external` for errors produced by external collaborators. -/
inductive MdError where
  | cantCreateTempFolder
  | cantCopyMdFile
  | cantOpenLogFile
  | external (msg : String)
deriving DecidableEq, Repr

/- ### String primitives (models of the JS string operations used) -/

/-- Model of JS `String.prototype.startsWith` on character lists:
`startsWithL pat l` is true when `pat` is an initial segment of `l`. -/
def startsWithL : List Char → List Char → Bool
  | [], _ => true
  | _ :: _, [] => false
  | p :: ps, c :: cs => decide (p = c) && startsWithL ps cs

/-- Model of JS `String.prototype.indexOf(pat) !== -1` on character lists:
`hasSub pat l` is true when `pat` occurs as a contiguous substring of `l`. -/
def hasSub (pat : List Char) : List Char → Bool
  | [] => pat.isEmpty
  | c :: cs => startsWithL pat (c :: cs) || hasSub pat cs

/-- The fixed marker of the applicability declaration: the regex
`(?<=applicable: ).+` requires the literal text `applicable: ` right
before the match. -/
def marker : List Char := "applicable: ".data

/-- One scanning step of the regex `(?<=applicable: ).+` (flags `gmu`)
inside a single line (`.` does not cross line terminators): the first
position whose preceding text is the marker and whose remaining line text
is non-empty yields that remaining text. -/
def afterMarkerChars : List Char → Option (List Char)
  | [] => none
  | c :: cs =>
    if startsWithL marker (c :: cs) ∧ (c :: cs).drop marker.length ≠ [] then
      some ((c :: cs).drop marker.length)
    else
      afterMarkerChars cs

/-- `groups[0]` of the `match` call in `isContainTag`: the first
applicability declaration found in the file, scanning lines in order. -/
def firstDecl (content : List String) : Option (List Char) :=
  content.findSome? (fun line => afterMarkerChars line.data)

/-- The `for (const metaTag of doc.metaTags)` loop of `isContainTag`:
returns true as soon as some tag occurs in the declaration
(`groups[0].indexOf(metaTag) !== -1`). -/
def containTagLoop : List String → List Char → Bool
  | [], _ => false
  | t :: ts, decl => if hasSub t.data decl then true else containTagLoop ts decl

/-- The `isContainTag` closure of `addMdFilesInQueue`.  File contents are
supplied as the list of lines of the file read by `fs.readFileSync`. -/
def isContainTag (metaTags : List String) (content : List String) : Bool :=
  if metaTags.isEmpty then true
  else
    match firstDecl content with
    | none => false
    | some decl => containTagLoop metaTags decl

/-- The `isFileIgnore` closure of `addMdFilesInQueue`: compares the
resolved absolute form of the file name against the resolved ignore list. -/
def isFileIgnore (resolve : String → String) (ignoreAbsolutePathsArr : List String)
    (fileName : String) : Bool :=
  ignoreAbsolutePathsArr.contains (resolve fileName)

/-- The document extension used by `_getMdFiles`. -/
def mdExt : String := ".md"

/-- `_getMdFiles` after discovery: keep the discovered files ending in
the document extension. -/
def getMdFiles (allFiles : List String) : List String :=
  allFiles.filter (fun file => file.endsWith mdExt)

/-- `addMdFilesInQueue`: filter the discovered files by extension, ignore
list and applicability tags, and push one task per surviving file, in
order.  `resolve` models `path.resolve`; `read` models `fs.readFileSync`
returning the file's lines. -/
def addMdFilesInQueue (resolve : String → String) (read : String → List String)
    (ignoreFiles : List String) (doc : Doc) (allFiles : List String) : List Task :=
  let ignoreAbsolutePathsArr := ignoreFiles.map resolve
  let mdFiles := (getMdFiles allFiles).filter
    (fun fn => !(isFileIgnore resolve ignoreAbsolutePathsArr fn)
      && isContainTag doc.metaTags (read fn))
  mdFiles.map (fun file => Task.mk file doc)

/- ### Observable events of the pipeline -/

/-- One observable action of the pipeline: calls into the external
collaborators (installer, filesystem, refresh tool, log store) and the
run-completion steps.  The state records them in execution order. -/
inductive Event where
  | installCall (name : String)
  | addTempFolderEv (name path : String)
  | ensureDirCall (path : String)
  | dirCreated (path : String)
  | copyCall (src : String)
  | toolCall (dist log : String)
  | ensureFileCall (path : String)
  | logReadCall (path : String)
  | addErrorEv (name : String)
  | addLogEv (name content : String)
  | disposeEv
  | saveEv
  | removeCall (path : String)
  | fatalEv
  | parseAllEv
deriving DecidableEq, Repr

/-- The mutable state of a run: the service's `installedDependencies`
array, the Log Store's contents, the model filesystem's set of existing
directories, the id generator counter and the event trace. -/
structure MState where
  installedDependencies : List String
  tempFolders : List (String × List String)
  errors : List (String × String)
  logs : List (String × String)
  dirs : List String
  nextId : Nat
  trace : List Event
deriving DecidableEq, Repr

/-- Outcomes the external collaborators may produce, fixed per run:
whether each call fails and what the refresh tool / log read return. -/
structure Env where
  installFails : String → Bool
  ensureDirFails : String → Bool
  copyFails : String → Bool
  toolResult : String → String → Except String String
  ensureFileFails : String → Bool
  readLogResult : String → Except String String
  removeFails : String → Bool

/-- Model of the `shortid` generator: the `n`-th id produced in a run. -/
def shortId (n : Nat) : String := "id" ++ toString n

/-- Character scan for `basename`: the text after the last separator. -/
def basenameAux : List Char → List Char → List Char
  | [], acc => acc
  | c :: cs, acc =>
    if c = '/' ∨ c = '\\' then basenameAux cs [] else basenameAux cs (acc ++ [c])

/-- Model of `path.basename`: the last path segment. -/
def basename (p : String) : String :=
  String.mk (basenameAux p.data [])

/- ### Log Store operations (external collaborator) -/

/-- Modelled from the spec: the Log Store contract
`addTempFolder(path, name)` with `getAllTempFolders()` returning a
mapping `name -> [path, ...]` (the Log Store service itself is not under
`src/`).  Appends `path` to `name`'s list, creating the entry if absent. -/
def addToAssoc (m : List (String × List String)) (name path : String) :
    List (String × List String) :=
  match m with
  | [] => [(name, [path])]
  | (k, v) :: rest =>
    if k = name then (k, v ++ [path]) :: rest else (k, v) :: addToAssoc rest name path

/-- Modelled from the spec: `logStoreService.addTempFolder(path, name)`. -/
def addTempFolder (path name : String) (s : MState) : MState :=
  { s with tempFolders := addToAssoc s.tempFolders name path,
           trace := s.trace ++ [Event.addTempFolderEv name path] }

/-- Modelled from the spec: `logStoreService.addError(err, name)` appends
the error to the Log Store's error channel under `name`. -/
def addError (err name : String) (s : MState) : MState :=
  { s with errors := s.errors ++ [(name, err)],
           trace := s.trace ++ [Event.addErrorEv name] }

/-- Modelled from the spec: `logStoreService.addLog(content, name)`
appends the log content to the Log Store's log channel under `name`. -/
def addLog (content name : String) (s : MState) : MState :=
  { s with logs := s.logs ++ [(name, content)],
           trace := s.trace ++ [Event.addLogEv name content] }

/-- Modelled from the spec: `logStoreService.saveInFs()` persists the
store; here only the call is recorded. -/
def saveInFs (s : MState) : MState :=
  { s with trace := s.trace ++ [Event.saveEv] }

/- ### The per-file processor -/

/-- The `getTempFolderName` closure of `processQueue`: look the group up
in the Log Store's temp-folder map; when absent, synthesize
`doc.path \\ shortId()` and register it, then re-read the map.  Returns
the group's path list (the JS destructures its first element). -/
def getTempFolderName (s : MState) (doc : Doc) : List String × MState :=
  match s.tempFolders.lookup doc.name with
  | some paths => (paths, s)
  | none =>
    let tempFolderPath := doc.path ++ "\\" ++ shortId s.nextId
    let s₁ := addTempFolder tempFolderPath doc.name { s with nextId := s.nextId + 1 }
    ((s₁.tempFolders.lookup doc.name).getD [], s₁)

/-- `copyMdInTempFolder(srcFilePath, tempFolderPath)`: ensure the
workspace directory exists (failure throws `CANT_CREATE_TEMP_FOLDER`),
then copy the file into it preserving its base name (failure throws
`CANT_COPY_MD_FILE`); returns the destination path. -/
def copyMdInTempFolder (env : Env) (srcFilePath tempFolderPath : String)
    (s : MState) : MState × Except MdError String :=
  let fileName := basename srcFilePath
  let distFilePath := tempFolderPath ++ "\\" ++ fileName
  let s₁ := { s with trace := s.trace ++ [Event.ensureDirCall tempFolderPath] }
  if env.ensureDirFails tempFolderPath then
    (s₁, Except.error MdError.cantCreateTempFolder)
  else
    let s₂ :=
      if tempFolderPath ∈ s₁.dirs then s₁
      else { s₁ with dirs := s₁.dirs ++ [tempFolderPath],
                     trace := s₁.trace ++ [Event.dirCreated tempFolderPath] }
    let s₃ := { s₂ with trace := s₂.trace ++ [Event.copyCall srcFilePath] }
    if env.copyFails srcFilePath then (s₃, Except.error MdError.cantCopyMdFile)
    else (s₃, Except.ok distFilePath)

/-- `getLogFileContent(logFilePath)`: `fs.ensureFile` failure throws
`CANT_OPEN_LOG_FILE`; a failing `fs.readFile` rejects with the raw
filesystem error; otherwise the log file's text is returned. -/
def getLogFileContent (env : Env) (logFilePath : String) (s : MState) :
    MState × Except MdError String :=
  let s₁ := { s with trace := s.trace ++ [Event.ensureFileCall logFilePath] }
  if env.ensureFileFails logFilePath then (s₁, Except.error MdError.cantOpenLogFile)
  else
    let s₂ := { s₁ with trace := s₁.trace ++ [Event.logReadCall logFilePath] }
    match env.readLogResult logFilePath with
    | Except.error e => (s₂, Except.error (MdError.external e))
    | Except.ok c => (s₂, Except.ok c)

/-- How a task hands its result to the queue: `cb(err, null)` is an error
outcome, `cb(null, '')` the empty non-error outcome of the tool-failure
path, `cb(null, {result, doc})` a completed result; `thrown` is an
exception escaping the async processor, never reaching `cb`. -/
inductive TaskOutcome where
  | cbError (e : MdError)
  | cbEmpty
  | cbResult (result : String) (doc : Doc)
  | thrown (e : MdError)
deriving DecidableEq, Repr

/-- Whether an outcome is an uncaught exception (the task never calls
back and the single-worker queue stalls). -/
def TaskOutcome.isThrown : TaskOutcome → Bool
  | TaskOutcome.thrown _ => true
  | _ => false

/-- The body of `processQueue` after the dependency-install gate:
resolve the temp workspace path, generate a fresh log-file path, copy the
file (error outcome on failure), invoke the refresh tool (on failure,
record the error in the Log Store and complete with the empty non-error
outcome), read the log file (error outcome on failure) and complete with
`{result, doc}`. -/
def processQueueBody (env : Env) (t : Task) (s : MState) : MState × TaskOutcome :=
  let tf := getTempFolderName s t.doc
  let tempFolderPath := tf.1.headD ""
  let s₂ := tf.2
  let logFilePath := tempFolderPath ++ "\\" ++ shortId s₂.nextId ++ ".log"
  let s₃ := { s₂ with nextId := s₂.nextId + 1 }
  let cp := copyMdInTempFolder env t.file tempFolderPath s₃
  match cp.2 with
  | Except.error e => (cp.1, TaskOutcome.cbError e)
  | Except.ok distFilePath =>
    let s₅ := { cp.1 with trace := cp.1.trace ++ [Event.toolCall distFilePath logFilePath] }
    match env.toolResult distFilePath logFilePath with
    | Except.error e => (addError e t.doc.name s₅, TaskOutcome.cbEmpty)
    | Except.ok _ =>
      let gl := getLogFileContent env logFilePath s₅
      match gl.2 with
      | Except.error e => (gl.1, TaskOutcome.cbError e)
      | Except.ok content => (gl.1, TaskOutcome.cbResult content t.doc)

/-- `processQueue({file, doc}, cb)`: when the group's name is not yet in
`installedDependencies`, push the name first and then await the
installer — a rejected install escapes uncaught (`thrown`); otherwise
fall through to the body. -/
def processQueue (env : Env) (t : Task) (s : MState) : MState × TaskOutcome :=
  let name := t.doc.name
  if s.installedDependencies.contains name then processQueueBody env t s
  else
    let s₁ := { s with installedDependencies := s.installedDependencies ++ [name],
                       trace := s.trace ++ [Event.installCall name] }
    if env.installFails name then (s₁, TaskOutcome.thrown (MdError.external "installDependencies"))
    else processQueueBody env t s₁

/-- `queueFinishHandler({result, doc})`: a falsy result (the `''` of the
tool-failure path, or an empty log text) appends nothing; otherwise the
result is appended to the Log Store's log channel under `doc.name`. -/
def queueFinishHandler (o : TaskOutcome) (s : MState) : MState :=
  match o with
  | TaskOutcome.cbResult r doc => if r = "" then s else addLog r doc.name s
  | _ => s

/-- `queueFailedHandler(err)`: rethrows, escalating the task error to a
process-fatal condition; recorded as a fatal event. -/
def queueFailedHandler (s : MState) : MState :=
  { s with trace := s.trace ++ [Event.fatalEv] }

/-- The per-task observers attached by each push: `failed` runs the
failure handler, `finish` the finish handler; an uncaught exception
reaches neither. -/
def afterTask (s : MState) (o : TaskOutcome) : MState :=
  match o with
  | TaskOutcome.cbError _ => queueFailedHandler s
  | TaskOutcome.thrown _ => s
  | _ => queueFinishHandler o s

/-- The result of draining the queue: final state, per-task outcomes in
completion order, and whether the queue actually drained (an uncaught
exception leaves the worker occupied forever and the queue never
empties). -/
structure RunResult where
  state : MState
  outcomes : List TaskOutcome
  drained : Bool
deriving DecidableEq, Repr

/-- The single-worker FIFO queue (spec section 4.3): tasks run strictly
one at a time in push order, each completion firing its observers before
the next task starts. -/
def runTasks (env : Env) (s : MState) : List Task → RunResult
  | [] => RunResult.mk s [] true
  | t :: ts =>
    let p := processQueue env t s
    if p.2.isThrown then RunResult.mk p.1 [p.2] false
    else
      let r := runTasks env (afterTask p.1 p.2) ts
      RunResult.mk r.state (p.2 :: r.outcomes) r.drained

/-- The removal loop of `queueEmptyHandler`.  The source's
`if (fs.pathExists(path))` tests an unawaited promise, which is always
truthy, so removal is attempted for every registered path; `fs.remove`
succeeds silently on a missing path, and a failure is rethrown as fatal,
skipping the rest of the handler. -/
def removeTempFolders (env : Env) (s : MState) : List String → MState × Bool
  | [] => (s, false)
  | p :: ps =>
    let s₁ := { s with trace := s.trace ++ [Event.removeCall p] }
    if env.removeFails p then
      ({ s₁ with trace := s₁.trace ++ [Event.fatalEv] }, true)
    else
      removeTempFolders env { s₁ with dirs := s₁.dirs.filter (fun d => d ≠ p) } ps

/-- `queueEmptyHandler`: dispose the PowerShell session, persist the Log
Store, remove the first registered path of every group, then run the log
post-processor (`parseAll`), which is skipped if a removal failed. -/
def queueEmptyHandler (env : Env) (s : MState) : MState :=
  let s₁ := { s with trace := s.trace ++ [Event.disposeEv] }
  let s₂ := saveInFs s₁
  let tempFolders := s₂.tempFolders.map (fun kv => kv.2.headD "")
  let r := removeTempFolders env s₂ tempFolders
  if r.2 then r.1 else { r.1 with trace := r.1.trace ++ [Event.parseAllEv] }

/-- A full run: drain the queue; the `empty` event fires the completion
handler once no tasks are pending or in flight (spec sections 4.3, 4.6). -/
def runQueue (env : Env) (s : MState) (ts : List Task) : RunResult :=
  let r := runTasks env s ts
  if r.drained then RunResult.mk (queueEmptyHandler env r.state) r.outcomes true else r

/- ### Derived path observations -/

/-- The workspace path `processQueue` uses for a task of `doc` started in
state `s`: the registered path when present, else the freshly synthesized
one. -/
def taskTempPath (s : MState) (doc : Doc) : String :=
  match s.tempFolders.lookup doc.name with
  | some paths => paths.headD ""
  | none => doc.path ++ "\\" ++ shortId s.nextId

/-- The log-file path `processQueue` generates for a task of `doc`
started in state `s` (one fresh id may already have gone to the
workspace path). -/
def taskLogPath (s : MState) (doc : Doc) : String :=
  taskTempPath s doc ++ "\\" ++
    shortId (s.nextId + (if (s.tempFolders.lookup doc.name).isSome then 0 else 1)) ++ ".log"

/-- The destination path a task's file is copied to. -/
def taskDistPath (s : MState) (t : Task) : String :=
  taskTempPath s t.doc ++ "\\" ++ basename t.file

/- ### Filter lemmas and claims C2, C8 -/

/-- The spec-side reading of the tag filter: the file has an
applicability declaration and some requested tag occurs inside the first
such declaration. -/
def specTagMatch (metaTags : List String) (content : List String) : Prop :=
  ∃ decl, firstDecl content = some decl ∧ ∃ tg ∈ metaTags, ∃ l r, decl = l ++ tg.data ++ r

/-- Fixture for the C2 witness: resolve is the identity and file
contents are fixed per name. -/
def wit2read : String → List String :=
  fun fn => if fn = "file1.md" then ["# t", "applicable: Exchange Online, more"]
    else ["# t", "applicable: On-Premises"]

/-- Is the event an installer invocation? -/
def Event.isInstallCall : Event → Bool
  | Event.installCall _ => true
  | _ => false

/-- Is the event a refresh-tool invocation? -/
def Event.isToolCall : Event → Bool
  | Event.toolCall _ _ => true
  | _ => false

/-- Is the event an access to the task's log file (creation or read)? -/
def Event.isLogAccess : Event → Bool
  | Event.ensureFileCall _ => true
  | Event.logReadCall _ => true
  | _ => false

/-- Is the event an append to the Log Store's log channel? -/
def Event.isAddLogEv : Event → Bool
  | Event.addLogEv _ _ => true
  | _ => false

/-- Is the event a workspace registration in the Log Store? -/
def Event.isAddTempFolderEv : Event → Bool
  | Event.addTempFolderEv _ _ => true
  | _ => false

/-- Is the event a directory-creation-primitive invocation? -/
def Event.isEnsureDirCall : Event → Bool
  | Event.ensureDirCall _ => true
  | _ => false

/-- Is the event an actual directory creation by the model filesystem? -/
def Event.isDirCreated : Event → Bool
  | Event.dirCreated _ => true
  | _ => false

/-- The state after the dependency-install gate of `processQueue`
succeeded for task `t`. -/
def postInstallState (t : Task) (s : MState) : MState :=
  if s.installedDependencies.contains t.doc.name then s
  else { s with installedDependencies := s.installedDependencies ++ [t.doc.name],
                trace := s.trace ++ [Event.installCall t.doc.name] }

/-- The state after the workspace-resolution step: the registration
effect of `getTempFolderName` plus the id consumed by the log-file path. -/
def pathState (s : MState) (doc : Doc) : MState :=
  { (getTempFolderName s doc).2 with nextId := (getTempFolderName s doc).2.nextId + 1 }

/-- `processQueueBody` with the intermediate paths written via
`taskTempPath`, `taskLogPath` and `taskDistPath` and the collaborators'
calls inlined; proved equal to `processQueueBody` below. -/
def bodyResult (env : Env) (t : Task) (s : MState) : MState × TaskOutcome :=
  let tp := taskTempPath s t.doc
  let lp := taskLogPath s t.doc
  let dist := taskDistPath s t
  let s₄ := { pathState s t.doc with trace := (pathState s t.doc).trace ++ [Event.ensureDirCall tp] }
  if env.ensureDirFails tp then (s₄, TaskOutcome.cbError MdError.cantCreateTempFolder)
  else
    let s₅ := if tp ∈ s₄.dirs then s₄
      else { s₄ with dirs := s₄.dirs ++ [tp], trace := s₄.trace ++ [Event.dirCreated tp] }
    let s₆ := { s₅ with trace := s₅.trace ++ [Event.copyCall t.file] }
    if env.copyFails t.file then (s₆, TaskOutcome.cbError MdError.cantCopyMdFile)
    else
      let s₇ := { s₆ with trace := s₆.trace ++ [Event.toolCall dist lp] }
      match env.toolResult dist lp with
      | Except.error e => (addError e t.doc.name s₇, TaskOutcome.cbEmpty)
      | Except.ok _ =>
        let s₈ := { s₇ with trace := s₇.trace ++ [Event.ensureFileCall lp] }
        if env.ensureFileFails lp then (s₈, TaskOutcome.cbError MdError.cantOpenLogFile)
        else
          let s₉ := { s₈ with trace := s₈.trace ++ [Event.logReadCall lp] }
          match env.readLogResult lp with
          | Except.error e => (s₉, TaskOutcome.cbError (MdError.external e))
          | Except.ok c => (s₉, TaskOutcome.cbResult c t.doc)

/-- State after the `fs.ensureDir` call of `copyMdInTempFolder`. -/
def wsState (s : MState) (doc : Doc) : MState :=
  { pathState s doc with
      trace := (pathState s doc).trace ++ [Event.ensureDirCall (taskTempPath s doc)] }

/-- State after the model filesystem has reacted to `fs.ensureDir`
(creating the directory only when missing). -/
def mkdirState (s : MState) (doc : Doc) : MState :=
  if taskTempPath s doc ∈ (wsState s doc).dirs then wsState s doc
  else { wsState s doc with
           dirs := (wsState s doc).dirs ++ [taskTempPath s doc],
           trace := (wsState s doc).trace ++ [Event.dirCreated (taskTempPath s doc)] }

/-- State after the `fs.copy` call. -/
def copiedState (s : MState) (doc : Doc) (file : String) : MState :=
  { mkdirState s doc with
      trace := (mkdirState s doc).trace ++ [Event.copyCall file] }

/-- State after the refresh-tool invocation. -/
def tooledState (s : MState) (t : Task) : MState :=
  { copiedState s t.doc t.file with
      trace := (copiedState s t.doc t.file).trace
        ++ [Event.toolCall (taskDistPath s t) (taskLogPath s t.doc)] }

/-- State after `getLogFileContent` has touched and read the log file. -/
def readState (s : MState) (t : Task) : MState :=
  { tooledState s t with
      trace := (tooledState s t).trace ++ [Event.ensureFileCall (taskLogPath s t.doc)]
        ++ [Event.logReadCall (taskLogPath s t.doc)] }

/-- State after `fs.ensureFile` has been called on the log path. -/
def touchedState (s : MState) (t : Task) : MState :=
  { tooledState s t with
      trace := (tooledState s t).trace ++ [Event.ensureFileCall (taskLogPath s t.doc)] }

/-- No further processing for a task: the Log Store's two channels are
unchanged and the trace gains no tool call, no log-file access and no
log append. -/
def noFurtherSteps (s s' : MState) : Prop :=
  s'.logs = s.logs ∧ s'.errors = s.errors
  ∧ s'.trace.filter Event.isToolCall = s.trace.filter Event.isToolCall
  ∧ s'.trace.filter Event.isLogAccess = s.trace.filter Event.isLogAccess
  ∧ s'.trace.filter Event.isAddLogEv = s.trace.filter Event.isAddLogEv

/-- Concrete fixtures used by the witnesses of the queue claims. -/
def emptyState : MState := MState.mk [] [] [] [] [] 0 []

/-- A concrete group with no tag filter. -/
def docG : Doc := Doc.mk "G" "p" []

/-- First pushed task. -/
def taskA : Task := Task.mk "a.md" docG

/-- Second pushed task, same group. -/
def taskB : Task := Task.mk "b.md" docG

/-- An environment whose refresh tool fails exactly on task A's copied
file and succeeds elsewhere, with a reliable filesystem. -/
def env1 : Env :=
  Env.mk (fun _ => false) (fun _ => false) (fun _ => false)
    (fun dist _ => if dist = "p\\id0\\a.md" then Except.error "boom" else Except.ok "out")
    (fun _ => false) (fun _ => Except.ok "LOG") (fun _ => false)

/-- An environment whose tool succeeds while the log file reads back
empty. -/
def env10 : Env :=
  Env.mk (fun _ => false) (fun _ => false) (fun _ => false)
    (fun _ _ => Except.ok "out") (fun _ => false) (fun _ => Except.ok "") (fun _ => false)

/-- The log entry an outcome contributes through the finish observer. -/
def outcomeLog : TaskOutcome → Option (String × String)
  | TaskOutcome.cbResult res doc => if res = "" then none else some (doc.name, res)
  | _ => none

/-- A state with one registered workspace whose directory exists next to
an unrelated directory. -/
def stateC3 : MState :=
  MState.mk ["G"] [("G", ["p\\id0"])] [] [] ["p\\id0", "unrelated"] 1 []

/-- An environment whose removals always succeed. -/
def env3 : Env :=
  Env.mk (fun _ => false) (fun _ => false) (fun _ => false)
    (fun _ _ => Except.ok "out") (fun _ => false) (fun _ => Except.ok "LOG") (fun _ => false)

/-- A state with two registered workspaces, for the removal-failure
clause of the cleanup claim. -/
def stateC3b : MState :=
  MState.mk ["G", "H"] [("G", ["p\\id0"]), ("H", ["q\\id1"])] [] [] ["p\\id0", "q\\id1"] 2 []

/-- An environment whose removal fails exactly on the second registered
workspace. -/
def env3b : Env :=
  Env.mk (fun _ => false) (fun _ => false) (fun _ => false)
    (fun _ _ => Except.ok "out") (fun _ => false) (fun _ => Except.ok "LOG")
    (fun q => q == "q\\id1")

theorem startsWithL_iff (pat l : List Char) :
    startsWithL pat l = true ↔ ∃ t, l = pat ++ t := by
  induction pat generalizing l with
  | nil => simp [startsWithL]
  | cons p ps ih =>
    cases l with
    | nil => simp [startsWithL]
    | cons c cs =>
      simp only [startsWithL, Bool.and_eq_true, decide_eq_true_eq, ih,
        List.cons_append, List.cons.injEq]
      constructor
      · rintro ⟨rfl, t, rfl⟩; exact ⟨t, rfl, rfl⟩
      · rintro ⟨t, rfl, rfl⟩; exact ⟨rfl, t, rfl⟩

theorem hasSub_iff (pat l : List Char) :
    hasSub pat l = true ↔ ∃ s t, l = s ++ pat ++ t := by
  induction l with
  | nil =>
    simp only [hasSub, List.isEmpty_iff]
    constructor
    · rintro rfl; exact ⟨[], [], rfl⟩
    · rintro ⟨s, t, h⟩
      rcases List.append_eq_nil.mp h.symm with ⟨h1, h2⟩
      exact (List.append_eq_nil.mp h1).2
  | cons c cs ih =>
    simp only [hasSub, Bool.or_eq_true, startsWithL_iff, ih]
    constructor
    · rintro (⟨t, h⟩ | ⟨s, t, rfl⟩)
      · exact ⟨[], t, by simpa using h⟩
      · exact ⟨c :: s, t, rfl⟩
    · rintro ⟨s, t, h⟩
      cases s with
      | nil => exact Or.inl ⟨t, by simpa using h⟩
      | cons a as =>
        right
        refine ⟨as, t, ?_⟩
        have h' : c = a ∧ cs = as ++ pat ++ t := by simpa using h
        exact h'.2

/- ### The applicability-tag filter -/

theorem containTagLoop_iff (ts : List String) (decl : List Char) :
    containTagLoop ts decl = true ↔ ∃ tg ∈ ts, ∃ l r, decl = l ++ tg.data ++ r := by
  induction ts with
  | nil => simp [containTagLoop]
  | cons t ts ih =>
    simp only [containTagLoop]
    by_cases h : hasSub t.data decl = true
    · rw [if_pos h]
      simp only [true_iff]
      obtain ⟨l, r, hl⟩ := (hasSub_iff t.data decl).mp h
      exact ⟨t, List.mem_cons_self t ts, l, r, hl⟩
    · rw [if_neg h, ih]
      constructor
      · rintro ⟨tg, htg, l, r, hl⟩
        exact ⟨tg, List.mem_cons_of_mem t htg, l, r, hl⟩
      · rintro ⟨tg, htg, l, r, hl⟩
        rcases List.mem_cons.mp htg with rfl | htg'
        · exact absurd ((hasSub_iff tg.data decl).mpr ⟨l, r, hl⟩) h
        · exact ⟨tg, htg', l, r, hl⟩

theorem isContainTag_iff_of_ne_nil (metaTags : List String) (content : List String)
    (hne : metaTags ≠ []) :
    isContainTag metaTags content = true ↔ specTagMatch metaTags content := by
  unfold isContainTag specTagMatch
  rw [if_neg (by simp [List.isEmpty_iff, hne])]
  cases hfd : firstDecl content with
  | none => simp
  | some decl => simp [containTagLoop_iff]

theorem mem_addMdFilesInQueue (resolve : String → String) (read : String → List String)
    (ignoreFiles : List String) (doc : Doc) (allFiles : List String) (fn : String) :
    Task.mk fn doc ∈ addMdFilesInQueue resolve read ignoreFiles doc allFiles ↔
      fn ∈ allFiles ∧ fn.endsWith mdExt = true
        ∧ (ignoreFiles.map resolve).contains (resolve fn) = false
        ∧ isContainTag doc.metaTags (read fn) = true := by
  unfold addMdFilesInQueue getMdFiles isFileIgnore
  simp only [List.mem_map, List.mem_filter, Bool.and_eq_true, Bool.not_eq_true']
  constructor
  · rintro ⟨a, ⟨⟨ha, hext⟩, hig, hct⟩, heq⟩
    cases heq
    exact ⟨ha, hext, hig, hct⟩
  · rintro ⟨ha, hext, hig, hct⟩
    exact ⟨fn, ⟨⟨ha, hext⟩, hig, hct⟩, rfl⟩

/-- C2: for a group with a non-empty tag list, the filter keeps a
candidate file (right extension, not ignored) exactly when the file has
an applicability declaration whose first occurrence contains some
requested tag as a substring; a file without the marker is always
excluded. -/
theorem claim2_tag_filter (resolve : String → String) (read : String → List String)
    (ignoreFiles : List String) (doc : Doc) (allFiles : List String)
    (hne : doc.metaTags ≠ []) :
    (∀ fn, Task.mk fn doc ∈ addMdFilesInQueue resolve read ignoreFiles doc allFiles ↔
        fn ∈ allFiles ∧ fn.endsWith mdExt = true
          ∧ (ignoreFiles.map resolve).contains (resolve fn) = false
          ∧ specTagMatch doc.metaTags (read fn))
    ∧ (∀ fn, firstDecl (read fn) = none →
        Task.mk fn doc ∉ addMdFilesInQueue resolve read ignoreFiles doc allFiles) := by
  constructor
  · intro fn
    rw [mem_addMdFilesInQueue, isContainTag_iff_of_ne_nil _ _ hne]
  · intro fn hnone hmem
    rw [mem_addMdFilesInQueue, isContainTag_iff_of_ne_nil _ _ hne] at hmem
    obtain ⟨-, -, -, decl, hdecl, -⟩ := hmem
    rw [hnone] at hdecl
    exact Option.noConfusion hdecl

theorem claim2_tag_filter_witness :
    (Doc.mk "Get-Foo" "/docs" ["Exchange Online"]).metaTags ≠ [] ∧
    ((∀ fn, Task.mk fn (Doc.mk "Get-Foo" "/docs" ["Exchange Online"]) ∈
        addMdFilesInQueue id wit2read [] (Doc.mk "Get-Foo" "/docs" ["Exchange Online"])
          ["file1.md", "file2.md"] ↔
        fn ∈ ["file1.md", "file2.md"] ∧ fn.endsWith mdExt = true
          ∧ (([] : List String).map id).contains (id fn) = false
          ∧ specTagMatch ["Exchange Online"] (wit2read fn))
    ∧ (∀ fn, firstDecl (wit2read fn) = none →
        Task.mk fn (Doc.mk "Get-Foo" "/docs" ["Exchange Online"]) ∉
          addMdFilesInQueue id wit2read [] (Doc.mk "Get-Foo" "/docs" ["Exchange Online"])
            ["file1.md", "file2.md"])) :=
  ⟨by decide, claim2_tag_filter id wit2read [] (Doc.mk "Get-Foo" "/docs" ["Exchange Online"])
    ["file1.md", "file2.md"] (by decide)⟩

/-- C8: for a group with an empty tag list the filter is content
independent (the file is never read) and keeps exactly the discovered
files with the document extension that are not in the resolved ignore
list. -/
theorem claim8_empty_tags_pass_through (resolve : String → String)
    (ignoreFiles : List String) (doc : Doc) (allFiles : List String)
    (he : doc.metaTags = []) :
    (∀ read read', addMdFilesInQueue resolve read ignoreFiles doc allFiles =
        addMdFilesInQueue resolve read' ignoreFiles doc allFiles)
    ∧ (∀ read fn, Task.mk fn doc ∈ addMdFilesInQueue resolve read ignoreFiles doc allFiles ↔
        fn ∈ allFiles ∧ fn.endsWith mdExt = true
          ∧ (ignoreFiles.map resolve).contains (resolve fn) = false) := by
  have hct : ∀ content, isContainTag doc.metaTags content = true := by
    intro content; simp [isContainTag, he]
  constructor
  · intro read read'
    unfold addMdFilesInQueue
    simp only [hct, Bool.and_true]
  · intro read fn
    rw [mem_addMdFilesInQueue]
    simp [hct]

theorem claim8_empty_tags_pass_through_witness :
    (Doc.mk "Get-Foo" "/docs" ([] : List String)).metaTags = [] ∧
    ((∀ read read', addMdFilesInQueue id read ["skip.md"]
        (Doc.mk "Get-Foo" "/docs" []) ["a.md", "skip.md", "c.txt"] =
        addMdFilesInQueue id read' ["skip.md"]
          (Doc.mk "Get-Foo" "/docs" []) ["a.md", "skip.md", "c.txt"])
    ∧ (∀ read fn, Task.mk fn (Doc.mk "Get-Foo" "/docs" []) ∈
        addMdFilesInQueue id read ["skip.md"]
          (Doc.mk "Get-Foo" "/docs" []) ["a.md", "skip.md", "c.txt"] ↔
        fn ∈ ["a.md", "skip.md", "c.txt"] ∧ fn.endsWith mdExt = true
          ∧ (["skip.md"].map id).contains (id fn) = false)) :=
  ⟨rfl, claim8_empty_tags_pass_through id ["skip.md"] (Doc.mk "Get-Foo" "/docs" [])
    ["a.md", "skip.md", "c.txt"] rfl⟩

/- ### Event classifiers and trace helpers -/

theorem filter_append_nil {p : Event → Bool} (l δ : List Event)
    (h : ∀ e ∈ δ, p e = false) : (l ++ δ).filter p = l.filter p := by
  rw [List.filter_append]
  have hδ : δ.filter p = [] := by
    rw [List.filter_eq_nil_iff]
    intro e he
    simp [h e he]
  rw [hδ, List.append_nil]

/- ### Install-gate characterization -/

theorem processQueue_eq_body (env : Env) (t : Task) (s : MState)
    (h : env.installFails t.doc.name = false) :
    processQueue env t s = processQueueBody env t (postInstallState t s) := by
  unfold processQueue postInstallState
  by_cases hc : s.installedDependencies.contains t.doc.name = true
  · rw [if_pos hc, if_pos hc]
  · rw [if_neg hc, if_neg hc, if_neg (by simp [h])]

theorem postInstallState_tempFolders (t : Task) (s : MState) :
    (postInstallState t s).tempFolders = s.tempFolders := by
  unfold postInstallState; split <;> rfl

theorem postInstallState_nextId (t : Task) (s : MState) :
    (postInstallState t s).nextId = s.nextId := by
  unfold postInstallState; split <;> rfl

theorem postInstallState_dirs (t : Task) (s : MState) :
    (postInstallState t s).dirs = s.dirs := by
  unfold postInstallState; split <;> rfl

theorem postInstallState_errors (t : Task) (s : MState) :
    (postInstallState t s).errors = s.errors := by
  unfold postInstallState; split <;> rfl

theorem postInstallState_logs (t : Task) (s : MState) :
    (postInstallState t s).logs = s.logs := by
  unfold postInstallState; split <;> rfl

theorem postInstallState_trace (t : Task) (s : MState) :
    ∃ δ, (postInstallState t s).trace = s.trace ++ δ
      ∧ ∀ e ∈ δ, e = Event.installCall t.doc.name := by
  unfold postInstallState
  split
  · exact ⟨[], by simp⟩
  · exact ⟨[Event.installCall t.doc.name], by simp⟩

theorem taskTempPath_postInstall (t : Task) (s : MState) :
    taskTempPath (postInstallState t s) t.doc = taskTempPath s t.doc := by
  unfold taskTempPath
  rw [postInstallState_tempFolders, postInstallState_nextId]

theorem taskLogPath_postInstall (t : Task) (s : MState) :
    taskLogPath (postInstallState t s) t.doc = taskLogPath s t.doc := by
  unfold taskLogPath
  rw [postInstallState_tempFolders, postInstallState_nextId, taskTempPath_postInstall]

theorem taskDistPath_postInstall (t : Task) (s : MState) :
    taskDistPath (postInstallState t s) t = taskDistPath s t := by
  unfold taskDistPath
  rw [taskTempPath_postInstall]

/- ### `getTempFolderName` characterization -/

theorem lookup_addToAssoc_self (m : List (String × List String)) (name path : String)
    (h : m.lookup name = none) : (addToAssoc m name path).lookup name = some [path] := by
  induction m with
  | nil => simp [addToAssoc]
  | cons kv rest ih =>
    obtain ⟨k, v⟩ := kv
    by_cases hk : k = name
    · subst hk
      simp [List.lookup_cons] at h
    · have hne : (name == k) = false := by
        simp only [beq_eq_false_iff_ne, ne_eq]
        exact fun hh => hk hh.symm
      simp only [List.lookup_cons, hne] at h
      simp only [addToAssoc, if_neg hk, List.lookup_cons, hne]
      exact ih h

theorem getTempFolderName_of_some (s : MState) (doc : Doc) (paths : List String)
    (h : s.tempFolders.lookup doc.name = some paths) :
    getTempFolderName s doc = (paths, s) := by
  unfold getTempFolderName
  rw [h]

theorem getTempFolderName_of_none (s : MState) (doc : Doc)
    (h : s.tempFolders.lookup doc.name = none) :
    getTempFolderName s doc =
      ([doc.path ++ "\\" ++ shortId s.nextId],
        { s with nextId := s.nextId + 1,
                 tempFolders := addToAssoc s.tempFolders doc.name
                   (doc.path ++ "\\" ++ shortId s.nextId),
                 trace := s.trace ++ [Event.addTempFolderEv doc.name
                   (doc.path ++ "\\" ++ shortId s.nextId)] }) := by
  unfold getTempFolderName
  rw [h]
  simp only [addTempFolder]
  rw [lookup_addToAssoc_self _ _ _ h]
  rfl

theorem getTempFolderName_headD (s : MState) (doc : Doc) :
    (getTempFolderName s doc).1.headD "" = taskTempPath s doc := by
  unfold taskTempPath
  cases hlk : s.tempFolders.lookup doc.name with
  | some paths => rw [getTempFolderName_of_some s doc paths hlk]
  | none => rw [getTempFolderName_of_none s doc hlk]; rfl

theorem getTempFolderName_logPath (s : MState) (doc : Doc) :
    (getTempFolderName s doc).1.headD "" ++ "\\" ++ shortId (getTempFolderName s doc).2.nextId
      ++ ".log" = taskLogPath s doc := by
  unfold taskLogPath
  rw [getTempFolderName_headD]
  cases hlk : s.tempFolders.lookup doc.name with
  | some paths => rw [getTempFolderName_of_some s doc paths hlk]; simp
  | none => rw [getTempFolderName_of_none s doc hlk]; simp

theorem getTempFolderName_dirs (s : MState) (doc : Doc) :
    (getTempFolderName s doc).2.dirs = s.dirs := by
  cases hlk : s.tempFolders.lookup doc.name with
  | some paths => rw [getTempFolderName_of_some s doc paths hlk]
  | none => rw [getTempFolderName_of_none s doc hlk]

theorem getTempFolderName_logs (s : MState) (doc : Doc) :
    (getTempFolderName s doc).2.logs = s.logs := by
  cases hlk : s.tempFolders.lookup doc.name with
  | some paths => rw [getTempFolderName_of_some s doc paths hlk]
  | none => rw [getTempFolderName_of_none s doc hlk]

theorem getTempFolderName_errors (s : MState) (doc : Doc) :
    (getTempFolderName s doc).2.errors = s.errors := by
  cases hlk : s.tempFolders.lookup doc.name with
  | some paths => rw [getTempFolderName_of_some s doc paths hlk]
  | none => rw [getTempFolderName_of_none s doc hlk]

theorem getTempFolderName_installed (s : MState) (doc : Doc) :
    (getTempFolderName s doc).2.installedDependencies = s.installedDependencies := by
  cases hlk : s.tempFolders.lookup doc.name with
  | some paths => rw [getTempFolderName_of_some s doc paths hlk]
  | none => rw [getTempFolderName_of_none s doc hlk]

theorem getTempFolderName_trace (s : MState) (doc : Doc) :
    ∃ δ, (getTempFolderName s doc).2.trace = s.trace ++ δ
      ∧ ∀ e ∈ δ, e = Event.addTempFolderEv doc.name (taskTempPath s doc) := by
  cases hlk : s.tempFolders.lookup doc.name with
  | some paths =>
    rw [getTempFolderName_of_some s doc paths hlk]
    exact ⟨[], by simp⟩
  | none =>
    rw [getTempFolderName_of_none s doc hlk]
    refine ⟨[Event.addTempFolderEv doc.name (doc.path ++ "\\" ++ shortId s.nextId)], rfl, ?_⟩
    unfold taskTempPath
    rw [hlk]
    simp

/- ### Flattened characterization of the per-file processor body -/

theorem processQueueBody_eq (env : Env) (t : Task) (s : MState) :
    processQueueBody env t s = bodyResult env t s := by
  have htp := getTempFolderName_headD s t.doc
  have hlp : taskTempPath s t.doc ++ "\\" ++ shortId (getTempFolderName s t.doc).2.nextId
      ++ ".log" = taskLogPath s t.doc := by
    rw [← getTempFolderName_headD]
    exact getTempFolderName_logPath s t.doc
  simp only [processQueueBody, bodyResult, copyMdInTempFolder, getLogFileContent,
    pathState, taskDistPath, htp, hlp]
  by_cases h1 : env.ensureDirFails (taskTempPath s t.doc) = true
  · simp [h1]
  · simp only [h1, if_false, Bool.false_eq_true]
    by_cases h2 : env.copyFails t.file = true
    · simp [h2]
    · simp only [h2, if_false, Bool.false_eq_true]
      cases h3 : env.toolResult (taskTempPath s t.doc ++ "\\" ++ basename t.file)
          (taskLogPath s t.doc) with
      | error e => simp [h3]
      | ok out =>
        simp only [h3]
        by_cases h4 : env.ensureFileFails (taskLogPath s t.doc) = true
        · simp [h4]
        · simp only [h4, if_false, Bool.false_eq_true]
          cases h5 : env.readLogResult (taskLogPath s t.doc) with
          | error e => simp [h5]
          | ok c => simp [h5]

/- ### Named intermediate states of a task -/

theorem bodyResult_dirFail (env : Env) (t : Task) (s : MState)
    (h1 : env.ensureDirFails (taskTempPath s t.doc) = true) :
    bodyResult env t s = (wsState s t.doc, TaskOutcome.cbError MdError.cantCreateTempFolder) := by
  simp only [bodyResult, wsState, h1, if_true]

theorem bodyResult_copyFail (env : Env) (t : Task) (s : MState)
    (h1 : env.ensureDirFails (taskTempPath s t.doc) = false)
    (h2 : env.copyFails t.file = true) :
    bodyResult env t s =
      (copiedState s t.doc t.file, TaskOutcome.cbError MdError.cantCopyMdFile) := by
  simp only [bodyResult, copiedState, mkdirState, wsState, h1, h2, if_true,
    Bool.false_eq_true, if_false]

theorem bodyResult_toolFail (env : Env) (t : Task) (s : MState) (e : String)
    (h1 : env.ensureDirFails (taskTempPath s t.doc) = false)
    (h2 : env.copyFails t.file = false)
    (h3 : env.toolResult (taskDistPath s t) (taskLogPath s t.doc) = Except.error e) :
    bodyResult env t s = (addError e t.doc.name (tooledState s t), TaskOutcome.cbEmpty) := by
  simp only [bodyResult, tooledState, copiedState, mkdirState, wsState, h1, h2, h3,
    Bool.false_eq_true, if_false]

theorem bodyResult_readOk (env : Env) (t : Task) (s : MState) (out c : String)
    (h1 : env.ensureDirFails (taskTempPath s t.doc) = false)
    (h2 : env.copyFails t.file = false)
    (h3 : env.toolResult (taskDistPath s t) (taskLogPath s t.doc) = Except.ok out)
    (h4 : env.ensureFileFails (taskLogPath s t.doc) = false)
    (h5 : env.readLogResult (taskLogPath s t.doc) = Except.ok c) :
    bodyResult env t s = (readState s t, TaskOutcome.cbResult c t.doc) := by
  simp only [bodyResult, readState, tooledState, copiedState, mkdirState, wsState,
    h1, h2, h3, h4, h5, Bool.false_eq_true, if_false]

/- ### Field lemmas for the intermediate states -/

theorem pathState_logs (s : MState) (doc : Doc) : (pathState s doc).logs = s.logs := by
  simp only [pathState]
  exact getTempFolderName_logs s doc

theorem pathState_errors (s : MState) (doc : Doc) : (pathState s doc).errors = s.errors := by
  simp only [pathState]
  exact getTempFolderName_errors s doc

theorem pathState_dirs (s : MState) (doc : Doc) : (pathState s doc).dirs = s.dirs := by
  simp only [pathState]
  exact getTempFolderName_dirs s doc

theorem pathState_installed (s : MState) (doc : Doc) :
    (pathState s doc).installedDependencies = s.installedDependencies := by
  simp only [pathState]
  exact getTempFolderName_installed s doc

theorem pathState_trace (s : MState) (doc : Doc) :
    ∃ δ, (pathState s doc).trace = s.trace ++ δ
      ∧ ∀ e ∈ δ, e = Event.addTempFolderEv doc.name (taskTempPath s doc) := by
  simp only [pathState]
  exact getTempFolderName_trace s doc

theorem copiedState_logs (s : MState) (doc : Doc) (f : String) :
    (copiedState s doc f).logs = s.logs := by
  simp only [copiedState, mkdirState, wsState]
  split <;> exact pathState_logs s doc

theorem copiedState_errors (s : MState) (doc : Doc) (f : String) :
    (copiedState s doc f).errors = s.errors := by
  simp only [copiedState, mkdirState, wsState]
  split <;> exact pathState_errors s doc

theorem copiedState_installed (s : MState) (doc : Doc) (f : String) :
    (copiedState s doc f).installedDependencies = s.installedDependencies := by
  simp only [copiedState, mkdirState, wsState]
  split <;> exact pathState_installed s doc

theorem wsState_logs (s : MState) (doc : Doc) : (wsState s doc).logs = s.logs := by
  simp only [wsState]
  exact pathState_logs s doc

theorem wsState_errors (s : MState) (doc : Doc) : (wsState s doc).errors = s.errors := by
  simp only [wsState]
  exact pathState_errors s doc

theorem tooledState_logs (s : MState) (t : Task) : (tooledState s t).logs = s.logs := by
  simp only [tooledState]
  exact copiedState_logs s t.doc t.file

theorem tooledState_errors (s : MState) (t : Task) : (tooledState s t).errors = s.errors := by
  simp only [tooledState]
  exact copiedState_errors s t.doc t.file

theorem readState_logs (s : MState) (t : Task) : (readState s t).logs = s.logs := by
  simp only [readState]
  exact tooledState_logs s t

theorem readState_errors (s : MState) (t : Task) : (readState s t).errors = s.errors := by
  simp only [readState]
  exact tooledState_errors s t

/-- The events a task adds up to the copy step carry no tool call, no
log-file access, no Log Store append and no install call. -/
theorem copiedState_trace (s : MState) (doc : Doc) (f : String) :
    ∃ δ, (copiedState s doc f).trace = s.trace ++ δ
      ∧ ∀ e ∈ δ, e.isToolCall = false ∧ e.isLogAccess = false ∧ e.isAddLogEv = false
          ∧ e.isInstallCall = false := by
  obtain ⟨δ₀, hδ₀, hδ₀e⟩ := pathState_trace s doc
  simp only [copiedState, mkdirState, wsState]
  by_cases hmem : taskTempPath s doc ∈ (pathState s doc).dirs
  · refine ⟨δ₀ ++ [Event.ensureDirCall (taskTempPath s doc), Event.copyCall f], ?_, ?_⟩
    · simp [hmem, hδ₀]
    · intro e he
      rcases List.mem_append.mp he with he | he
      · rw [hδ₀e e he]; exact ⟨rfl, rfl, rfl, rfl⟩
      · simp only [List.mem_cons, List.not_mem_nil, or_false] at he
        rcases he with rfl | rfl <;> exact ⟨rfl, rfl, rfl, rfl⟩
  · refine ⟨δ₀ ++ [Event.ensureDirCall (taskTempPath s doc),
      Event.dirCreated (taskTempPath s doc), Event.copyCall f], ?_, ?_⟩
    · simp [hmem, hδ₀]
    · intro e he
      rcases List.mem_append.mp he with he | he
      · rw [hδ₀e e he]; exact ⟨rfl, rfl, rfl, rfl⟩
      · simp only [List.mem_cons, List.not_mem_nil, or_false] at he
        rcases he with rfl | rfl | rfl <;> exact ⟨rfl, rfl, rfl, rfl⟩

/-- The events a task adds up to the `fs.ensureDir` failure carry no
tool call, no log-file access, no Log Store append and no install call. -/
theorem wsState_trace (s : MState) (doc : Doc) :
    ∃ δ, (wsState s doc).trace = s.trace ++ δ
      ∧ ∀ e ∈ δ, e.isToolCall = false ∧ e.isLogAccess = false ∧ e.isAddLogEv = false
          ∧ e.isInstallCall = false := by
  obtain ⟨δ₀, hδ₀, hδ₀e⟩ := pathState_trace s doc
  refine ⟨δ₀ ++ [Event.ensureDirCall (taskTempPath s doc)], ?_, ?_⟩
  · simp [wsState, hδ₀]
  · intro e he
    rcases List.mem_append.mp he with he | he
    · rw [hδ₀e e he]; exact ⟨rfl, rfl, rfl, rfl⟩
    · rw [List.mem_singleton.mp he]; exact ⟨rfl, rfl, rfl, rfl⟩

/- ### Remaining branch equations and preservation lemmas -/

theorem bodyResult_ensureFileFail (env : Env) (t : Task) (s : MState) (out : String)
    (h1 : env.ensureDirFails (taskTempPath s t.doc) = false)
    (h2 : env.copyFails t.file = false)
    (h3 : env.toolResult (taskDistPath s t) (taskLogPath s t.doc) = Except.ok out)
    (h4 : env.ensureFileFails (taskLogPath s t.doc) = true) :
    bodyResult env t s = (touchedState s t, TaskOutcome.cbError MdError.cantOpenLogFile) := by
  simp only [bodyResult, touchedState, tooledState, copiedState, mkdirState, wsState,
    h1, h2, h3, h4, Bool.false_eq_true, if_false, if_true]

theorem bodyResult_readFail (env : Env) (t : Task) (s : MState) (out e : String)
    (h1 : env.ensureDirFails (taskTempPath s t.doc) = false)
    (h2 : env.copyFails t.file = false)
    (h3 : env.toolResult (taskDistPath s t) (taskLogPath s t.doc) = Except.ok out)
    (h4 : env.ensureFileFails (taskLogPath s t.doc) = false)
    (h5 : env.readLogResult (taskLogPath s t.doc) = Except.error e) :
    bodyResult env t s = (readState s t, TaskOutcome.cbError (MdError.external e)) := by
  simp only [bodyResult, readState, tooledState, copiedState, mkdirState, wsState,
    h1, h2, h3, h4, h5, Bool.false_eq_true, if_false]

theorem tooledState_installed (s : MState) (t : Task) :
    (tooledState s t).installedDependencies = s.installedDependencies := by
  simp only [tooledState]
  exact copiedState_installed s t.doc t.file

theorem readState_installed (s : MState) (t : Task) :
    (readState s t).installedDependencies = s.installedDependencies := by
  simp only [readState, touchedState, tooledState]
  exact copiedState_installed s t.doc t.file

theorem touchedState_installed (s : MState) (t : Task) :
    (touchedState s t).installedDependencies = s.installedDependencies := by
  simp only [touchedState, tooledState]
  exact copiedState_installed s t.doc t.file

theorem tooledState_trace (s : MState) (t : Task) :
    ∃ δ, (tooledState s t).trace = s.trace ++ δ
      ∧ ∀ e ∈ δ, e.isAddLogEv = false ∧ e.isInstallCall = false := by
  obtain ⟨δ₀, hδ₀, hδ₀e⟩ := copiedState_trace s t.doc t.file
  refine ⟨δ₀ ++ [Event.toolCall (taskDistPath s t) (taskLogPath s t.doc)], ?_, ?_⟩
  · simp [tooledState, hδ₀]
  · intro e he
    rcases List.mem_append.mp he with he | he
    · exact ⟨(hδ₀e e he).2.2.1, (hδ₀e e he).2.2.2⟩
    · rw [List.mem_singleton.mp he]; exact ⟨rfl, rfl⟩

theorem touchedState_trace (s : MState) (t : Task) :
    ∃ δ, (touchedState s t).trace = s.trace ++ δ
      ∧ ∀ e ∈ δ, e.isAddLogEv = false ∧ e.isInstallCall = false := by
  obtain ⟨δ₀, hδ₀, hδ₀e⟩ := tooledState_trace s t
  refine ⟨δ₀ ++ [Event.ensureFileCall (taskLogPath s t.doc)], ?_, ?_⟩
  · simp [touchedState, hδ₀]
  · intro e he
    rcases List.mem_append.mp he with he | he
    · exact hδ₀e e he
    · rw [List.mem_singleton.mp he]; exact ⟨rfl, rfl⟩

theorem readState_trace (s : MState) (t : Task) :
    ∃ δ, (readState s t).trace = s.trace ++ δ
      ∧ ∀ e ∈ δ, e.isAddLogEv = false ∧ e.isInstallCall = false := by
  obtain ⟨δ₀, hδ₀, hδ₀e⟩ := tooledState_trace s t
  refine ⟨δ₀ ++ [Event.ensureFileCall (taskLogPath s t.doc),
    Event.logReadCall (taskLogPath s t.doc)], ?_, ?_⟩
  · simp [readState, hδ₀]
  · intro e he
    rcases List.mem_append.mp he with he | he
    · exact hδ₀e e he
    · simp only [List.mem_cons, List.not_mem_nil, or_false] at he
      rcases he with rfl | rfl <;> exact ⟨rfl, rfl⟩

/-- The body of the processor never invokes the installer and never
appends to the Log Store's log channel. -/
theorem bodyResult_no_install_no_addLog (env : Env) (t : Task) (s : MState) :
    ∃ δ, (bodyResult env t s).1.trace = s.trace ++ δ
      ∧ ∀ e ∈ δ, e.isAddLogEv = false ∧ e.isInstallCall = false := by
  by_cases h1 : env.ensureDirFails (taskTempPath s t.doc) = true
  · rw [bodyResult_dirFail env t s h1]
    obtain ⟨δ, hδ, hδe⟩ := wsState_trace s t.doc
    exact ⟨δ, hδ, fun e he => ⟨(hδe e he).2.2.1, (hδe e he).2.2.2⟩⟩
  · rw [Bool.not_eq_true] at h1
    by_cases h2 : env.copyFails t.file = true
    · rw [bodyResult_copyFail env t s h1 h2]
      obtain ⟨δ, hδ, hδe⟩ := copiedState_trace s t.doc t.file
      exact ⟨δ, hδ, fun e he => ⟨(hδe e he).2.2.1, (hδe e he).2.2.2⟩⟩
    · rw [Bool.not_eq_true] at h2
      cases h3 : env.toolResult (taskDistPath s t) (taskLogPath s t.doc) with
      | error e =>
        rw [bodyResult_toolFail env t s e h1 h2 h3]
        obtain ⟨δ, hδ, hδe⟩ := tooledState_trace s t
        refine ⟨δ ++ [Event.addErrorEv t.doc.name], ?_, ?_⟩
        · simp [addError, hδ]
        · intro x hx
          rcases List.mem_append.mp hx with hx | hx
          · exact hδe x hx
          · rw [List.mem_singleton.mp hx]; exact ⟨rfl, rfl⟩
      | ok out =>
        by_cases h4 : env.ensureFileFails (taskLogPath s t.doc) = true
        · rw [bodyResult_ensureFileFail env t s out h1 h2 h3 h4]
          exact touchedState_trace s t
        · rw [Bool.not_eq_true] at h4
          cases h5 : env.readLogResult (taskLogPath s t.doc) with
          | error e =>
            rw [bodyResult_readFail env t s out e h1 h2 h3 h4 h5]
            exact readState_trace s t
          | ok c =>
            rw [bodyResult_readOk env t s out c h1 h2 h3 h4 h5]
            exact readState_trace s t

theorem wsState_installed (s : MState) (doc : Doc) :
    (wsState s doc).installedDependencies = s.installedDependencies := by
  simp only [wsState]
  exact pathState_installed s doc

/-- The body of the processor never touches `installedDependencies`. -/
theorem bodyResult_installed (env : Env) (t : Task) (s : MState) :
    (bodyResult env t s).1.installedDependencies = s.installedDependencies := by
  by_cases h1 : env.ensureDirFails (taskTempPath s t.doc) = true
  · rw [bodyResult_dirFail env t s h1]
    exact wsState_installed s t.doc
  · rw [Bool.not_eq_true] at h1
    by_cases h2 : env.copyFails t.file = true
    · rw [bodyResult_copyFail env t s h1 h2]
      exact copiedState_installed s t.doc t.file
    · rw [Bool.not_eq_true] at h2
      cases h3 : env.toolResult (taskDistPath s t) (taskLogPath s t.doc) with
      | error e =>
        rw [bodyResult_toolFail env t s e h1 h2 h3]
        simp only [addError]
        exact tooledState_installed s t
      | ok out =>
        by_cases h4 : env.ensureFileFails (taskLogPath s t.doc) = true
        · rw [bodyResult_ensureFileFail env t s out h1 h2 h3 h4]
          exact touchedState_installed s t
        · rw [Bool.not_eq_true] at h4
          cases h5 : env.readLogResult (taskLogPath s t.doc) with
          | error e =>
            rw [bodyResult_readFail env t s out e h1 h2 h3 h4 h5]
            exact readState_installed s t
          | ok c =>
            rw [bodyResult_readOk env t s out c h1 h2 h3 h4 h5]
            exact readState_installed s t

/-- A task whose group is already in `installedDependencies` makes no
install call and leaves the installed set unchanged. -/
theorem processQueue_skip_install (env : Env) (t : Task) (s : MState)
    (hmem : s.installedDependencies.contains t.doc.name = true) :
    (processQueue env t s).1.trace.filter Event.isInstallCall =
      s.trace.filter Event.isInstallCall
    ∧ (processQueue env t s).1.installedDependencies = s.installedDependencies := by
  have hpq : processQueue env t s = processQueueBody env t s := by
    unfold processQueue
    rw [if_pos hmem]
  rw [hpq, processQueueBody_eq]
  obtain ⟨δ, hδ, hδe⟩ := bodyResult_no_install_no_addLog env t s
  exact ⟨by rw [hδ, filter_append_nil _ _ (fun e he => (hδe e he).2)],
    bodyResult_installed env t s⟩

/- ### Claim C9 -/

/-- C9: the group name is pushed into `installedDependencies` before the
installer is awaited, so a failing install leaves the name recorded: the
task ends in an uncaught exception, the Log Store's error channel is
untouched, and any task of that group processed with the name recorded
makes no further install call (the install is never retried). -/
theorem claim9_install_failure_uncaught (env : Env) (t : Task) (s : MState)
    (hnotin : s.installedDependencies.contains t.doc.name = false)
    (hfail : env.installFails t.doc.name = true) :
    processQueue env t s =
      ({ s with installedDependencies := s.installedDependencies ++ [t.doc.name],
                trace := s.trace ++ [Event.installCall t.doc.name] },
        TaskOutcome.thrown (MdError.external "installDependencies"))
    ∧ (processQueue env t s).1.errors = s.errors
    ∧ (processQueue env t s).1.installedDependencies.contains t.doc.name = true
    ∧ (∀ env' t' s', t'.doc.name = t.doc.name →
        s'.installedDependencies.contains t.doc.name = true →
        (processQueue env' t' s').1.trace.filter Event.isInstallCall =
          s'.trace.filter Event.isInstallCall) := by
  have hres : processQueue env t s =
      ({ s with installedDependencies := s.installedDependencies ++ [t.doc.name],
                trace := s.trace ++ [Event.installCall t.doc.name] },
        TaskOutcome.thrown (MdError.external "installDependencies")) := by
    unfold processQueue
    rw [if_neg (show ¬s.installedDependencies.contains t.doc.name = true by
      rw [hnotin]; exact Bool.false_ne_true), if_pos hfail]
  refine ⟨hres, by rw [hres], ?_, ?_⟩
  · rw [hres]
    show (s.installedDependencies ++ [t.doc.name]).contains t.doc.name = true
    exact List.elem_eq_true_of_mem
      (List.mem_append_right _ (List.mem_singleton_self _))
  · intro env' t' s' hname hmem
    rw [← hname] at hmem
    exact (processQueue_skip_install env' t' s' hmem).1

/-- C9 witness at a concrete failing installer. -/
theorem claim9_install_failure_uncaught_witness :
    ((⟨[], [], [], [], [], 0, []⟩ : MState)).installedDependencies.contains
        (Task.mk "a.md" (Doc.mk "G" "p" [])).doc.name = false
    ∧ (Env.mk (fun _ => true) (fun _ => false) (fun _ => false)
        (fun _ _ => Except.ok "out") (fun _ => false)
        (fun _ => Except.ok "LOG") (fun _ => false)).installFails
        (Task.mk "a.md" (Doc.mk "G" "p" [])).doc.name = true
    ∧ (processQueue
        (Env.mk (fun _ => true) (fun _ => false) (fun _ => false)
          (fun _ _ => Except.ok "out") (fun _ => false)
          (fun _ => Except.ok "LOG") (fun _ => false))
        (Task.mk "a.md" (Doc.mk "G" "p" []))
        (⟨[], [], [], [], [], 0, []⟩ : MState) =
      ({ (⟨[], [], [], [], [], 0, []⟩ : MState) with
            installedDependencies := [] ++ ["G"],
            trace := [] ++ [Event.installCall "G"] },
        TaskOutcome.thrown (MdError.external "installDependencies"))
      ∧ (processQueue
          (Env.mk (fun _ => true) (fun _ => false) (fun _ => false)
            (fun _ _ => Except.ok "out") (fun _ => false)
            (fun _ => Except.ok "LOG") (fun _ => false))
          (Task.mk "a.md" (Doc.mk "G" "p" []))
          (⟨[], [], [], [], [], 0, []⟩ : MState)).1.errors = []
      ∧ (processQueue
          (Env.mk (fun _ => true) (fun _ => false) (fun _ => false)
            (fun _ _ => Except.ok "out") (fun _ => false)
            (fun _ => Except.ok "LOG") (fun _ => false))
          (Task.mk "a.md" (Doc.mk "G" "p" []))
          (⟨[], [], [], [], [], 0, []⟩ : MState)).1.installedDependencies.contains "G" = true
      ∧ (∀ env' t' s', t'.doc.name = "G" →
          s'.installedDependencies.contains "G" = true →
          (processQueue env' t' s').1.trace.filter Event.isInstallCall =
            s'.trace.filter Event.isInstallCall)) :=
  ⟨rfl, rfl,
    claim9_install_failure_uncaught
      (Env.mk (fun _ => true) (fun _ => false) (fun _ => false)
        (fun _ _ => Except.ok "out") (fun _ => false)
        (fun _ => Except.ok "LOG") (fun _ => false))
      (Task.mk "a.md" (Doc.mk "G" "p" []))
      (⟨[], [], [], [], [], 0, []⟩ : MState) rfl rfl⟩

/- ### Claim C7 -/

theorem noFurtherSteps_of (s s' : MState) (δ : List Event)
    (hlogs : s'.logs = s.logs) (herr : s'.errors = s.errors)
    (htr : s'.trace = s.trace ++ δ)
    (hall : ∀ e ∈ δ, e.isToolCall = false ∧ e.isLogAccess = false ∧ e.isAddLogEv = false) :
    noFurtherSteps s s' :=
  ⟨hlogs, herr,
    by rw [htr, filter_append_nil _ _ (fun e he => (hall e he).1)],
    by rw [htr, filter_append_nil _ _ (fun e he => (hall e he).2.1)],
    by rw [htr, filter_append_nil _ _ (fun e he => (hall e he).2.2)]⟩

/-- C7: a workspace-creation failure completes the task with the
`CANT_CREATE_TEMP_FOLDER` error outcome, a copy failure with the
`CANT_COPY_MD_FILE` error outcome, and in either case the refresh tool is
not invoked, no log file is touched or read, and the Log Store is
unchanged. -/
theorem claim7_copy_failure_fatal (env : Env) (t : Task) (s : MState)
    (hinst : env.installFails t.doc.name = false) :
    (env.ensureDirFails (taskTempPath s t.doc) = true →
      (processQueue env t s).2 = TaskOutcome.cbError MdError.cantCreateTempFolder
      ∧ noFurtherSteps s (processQueue env t s).1)
    ∧ (env.ensureDirFails (taskTempPath s t.doc) = false → env.copyFails t.file = true →
      (processQueue env t s).2 = TaskOutcome.cbError MdError.cantCopyMdFile
      ∧ noFurtherSteps s (processQueue env t s).1) := by
  obtain ⟨δᵢ, hδᵢ, hδᵢe⟩ := postInstallState_trace t s
  have hδᵢall : ∀ e ∈ δᵢ, e.isToolCall = false ∧ e.isLogAccess = false
      ∧ e.isAddLogEv = false := by
    intro e he
    rw [hδᵢe e he]
    exact ⟨rfl, rfl, rfl⟩
  constructor
  · intro h1
    have h1' : env.ensureDirFails (taskTempPath (postInstallState t s) t.doc) = true := by
      rw [taskTempPath_postInstall]; exact h1
    have hres : processQueue env t s =
        (wsState (postInstallState t s) t.doc,
          TaskOutcome.cbError MdError.cantCreateTempFolder) := by
      rw [processQueue_eq_body env t s hinst, processQueueBody_eq,
        bodyResult_dirFail env t _ h1']
    rw [hres]
    obtain ⟨δ, hδ, hδe⟩ := wsState_trace (postInstallState t s) t.doc
    refine ⟨rfl, noFurtherSteps_of s _ (δᵢ ++ δ) ?_ ?_ ?_ ?_⟩
    · rw [wsState_logs, postInstallState_logs]
    · rw [wsState_errors, postInstallState_errors]
    · rw [hδ, hδᵢ, List.append_assoc]
    · intro e he
      rcases List.mem_append.mp he with he | he
      · exact hδᵢall e he
      · exact ⟨(hδe e he).1, (hδe e he).2.1, (hδe e he).2.2.1⟩
  · intro h1 h2
    have h1' : env.ensureDirFails (taskTempPath (postInstallState t s) t.doc) = false := by
      rw [taskTempPath_postInstall]; exact h1
    have hres : processQueue env t s =
        (copiedState (postInstallState t s) t.doc t.file,
          TaskOutcome.cbError MdError.cantCopyMdFile) := by
      rw [processQueue_eq_body env t s hinst, processQueueBody_eq,
        bodyResult_copyFail env t _ h1' h2]
    rw [hres]
    obtain ⟨δ, hδ, hδe⟩ := copiedState_trace (postInstallState t s) t.doc t.file
    refine ⟨rfl, noFurtherSteps_of s _ (δᵢ ++ δ) ?_ ?_ ?_ ?_⟩
    · rw [copiedState_logs, postInstallState_logs]
    · rw [copiedState_errors, postInstallState_errors]
    · rw [hδ, hδᵢ, List.append_assoc]
    · intro e he
      rcases List.mem_append.mp he with he | he
      · exact hδᵢall e he
      · exact ⟨(hδe e he).1, (hδe e he).2.1, (hδe e he).2.2.1⟩

/-- C7 witness at a concrete environment whose `ensureDir` always fails. -/
theorem claim7_copy_failure_fatal_witness :
    (Env.mk (fun _ => false) (fun _ => true) (fun _ => false)
        (fun _ _ => Except.ok "out") (fun _ => false)
        (fun _ => Except.ok "LOG") (fun _ => false)).installFails
      (Task.mk "a.md" (Doc.mk "G" "p" [])).doc.name = false
    ∧ (((Env.mk (fun _ => false) (fun _ => true) (fun _ => false)
          (fun _ _ => Except.ok "out") (fun _ => false)
          (fun _ => Except.ok "LOG") (fun _ => false)).ensureDirFails
        (taskTempPath (⟨[], [], [], [], [], 0, []⟩ : MState)
          (Task.mk "a.md" (Doc.mk "G" "p" [])).doc) = true →
      (processQueue
          (Env.mk (fun _ => false) (fun _ => true) (fun _ => false)
            (fun _ _ => Except.ok "out") (fun _ => false)
            (fun _ => Except.ok "LOG") (fun _ => false))
          (Task.mk "a.md" (Doc.mk "G" "p" []))
          (⟨[], [], [], [], [], 0, []⟩ : MState)).2 =
        TaskOutcome.cbError MdError.cantCreateTempFolder
      ∧ noFurtherSteps (⟨[], [], [], [], [], 0, []⟩ : MState)
          (processQueue
            (Env.mk (fun _ => false) (fun _ => true) (fun _ => false)
              (fun _ _ => Except.ok "out") (fun _ => false)
              (fun _ => Except.ok "LOG") (fun _ => false))
            (Task.mk "a.md" (Doc.mk "G" "p" []))
            (⟨[], [], [], [], [], 0, []⟩ : MState)).1)
    ∧ ((Env.mk (fun _ => false) (fun _ => true) (fun _ => false)
          (fun _ _ => Except.ok "out") (fun _ => false)
          (fun _ => Except.ok "LOG") (fun _ => false)).ensureDirFails
        (taskTempPath (⟨[], [], [], [], [], 0, []⟩ : MState)
          (Task.mk "a.md" (Doc.mk "G" "p" [])).doc) = false →
      (Env.mk (fun _ => false) (fun _ => true) (fun _ => false)
          (fun _ _ => Except.ok "out") (fun _ => false)
          (fun _ => Except.ok "LOG") (fun _ => false)).copyFails
        (Task.mk "a.md" (Doc.mk "G" "p" [])).file = true →
      (processQueue
          (Env.mk (fun _ => false) (fun _ => true) (fun _ => false)
            (fun _ _ => Except.ok "out") (fun _ => false)
            (fun _ => Except.ok "LOG") (fun _ => false))
          (Task.mk "a.md" (Doc.mk "G" "p" []))
          (⟨[], [], [], [], [], 0, []⟩ : MState)).2 =
        TaskOutcome.cbError MdError.cantCopyMdFile
      ∧ noFurtherSteps (⟨[], [], [], [], [], 0, []⟩ : MState)
          (processQueue
            (Env.mk (fun _ => false) (fun _ => true) (fun _ => false)
              (fun _ _ => Except.ok "out") (fun _ => false)
              (fun _ => Except.ok "LOG") (fun _ => false))
            (Task.mk "a.md" (Doc.mk "G" "p" []))
            (⟨[], [], [], [], [], 0, []⟩ : MState)).1)) :=
  ⟨rfl,
    claim7_copy_failure_fatal
      (Env.mk (fun _ => false) (fun _ => true) (fun _ => false)
        (fun _ _ => Except.ok "out") (fun _ => false)
        (fun _ => Except.ok "LOG") (fun _ => false))
      (Task.mk "a.md" (Doc.mk "G" "p" []))
      (⟨[], [], [], [], [], 0, []⟩ : MState) rfl⟩

/- ### Claims C1 and C10 -/

/-- C1: when the refresh tool fails for a task, the error is appended to
the Log Store's error channel under the group's name, the task completes
with the non-error empty outcome (on which the finish observer is a
no-op), and the queue continues with the remaining tasks exactly as it
would from the resulting state. -/
theorem claim1_tool_failure_isolated (env : Env) (t : Task) (s : MState)
    (ts : List Task) (e : String)
    (hinst : env.installFails t.doc.name = false)
    (hdir : env.ensureDirFails (taskTempPath s t.doc) = false)
    (hcopy : env.copyFails t.file = false)
    (htool : env.toolResult (taskDistPath s t) (taskLogPath s t.doc) = Except.error e) :
    ∃ s', processQueue env t s = (s', TaskOutcome.cbEmpty)
      ∧ s'.errors = s.errors ++ [(t.doc.name, e)]
      ∧ s'.logs = s.logs
      ∧ afterTask s' TaskOutcome.cbEmpty = s'
      ∧ runTasks env s (t :: ts) =
          RunResult.mk (runTasks env s' ts).state
            (TaskOutcome.cbEmpty :: (runTasks env s' ts).outcomes)
            (runTasks env s' ts).drained := by
  have hdir' : env.ensureDirFails (taskTempPath (postInstallState t s) t.doc) = false := by
    rw [taskTempPath_postInstall]; exact hdir
  have htool' : env.toolResult (taskDistPath (postInstallState t s) t)
      (taskLogPath (postInstallState t s) t.doc) = Except.error e := by
    rw [taskDistPath_postInstall, taskLogPath_postInstall]; exact htool
  have hres : processQueue env t s =
      (addError e t.doc.name (tooledState (postInstallState t s) t),
        TaskOutcome.cbEmpty) := by
    rw [processQueue_eq_body env t s hinst, processQueueBody_eq,
      bodyResult_toolFail env t _ e hdir' hcopy htool']
  refine ⟨addError e t.doc.name (tooledState (postInstallState t s) t), hres, ?_, ?_, rfl, ?_⟩
  · show (tooledState (postInstallState t s) t).errors ++ [(t.doc.name, e)] =
      s.errors ++ [(t.doc.name, e)]
    rw [tooledState_errors, postInstallState_errors]
  · show (tooledState (postInstallState t s) t).logs = s.logs
    rw [tooledState_logs, postInstallState_logs]
  · simp only [runTasks, hres]
    rfl

/-- C1 witness: task A's tool invocation fails, task B (same group,
pushed after A) still completes with a log entry, and the queue drains. -/
theorem claim1_tool_failure_isolated_witness :
    env1.installFails taskA.doc.name = false
    ∧ env1.ensureDirFails (taskTempPath emptyState taskA.doc) = false
    ∧ env1.copyFails taskA.file = false
    ∧ env1.toolResult (taskDistPath emptyState taskA) (taskLogPath emptyState taskA.doc) =
        Except.error "boom"
    ∧ (∃ s', processQueue env1 taskA emptyState = (s', TaskOutcome.cbEmpty)
        ∧ s'.errors = emptyState.errors ++ [(taskA.doc.name, "boom")]
        ∧ s'.logs = emptyState.logs
        ∧ afterTask s' TaskOutcome.cbEmpty = s'
        ∧ runTasks env1 emptyState (taskA :: [taskB]) =
            RunResult.mk (runTasks env1 s' [taskB]).state
              (TaskOutcome.cbEmpty :: (runTasks env1 s' [taskB]).outcomes)
              (runTasks env1 s' [taskB]).drained)
    ∧ (runQueue env1 emptyState [taskA, taskB]).drained = true
    ∧ (runQueue env1 emptyState [taskA, taskB]).state.logs = [("G", "LOG")]
    ∧ (runQueue env1 emptyState [taskA, taskB]).state.errors = [("G", "boom")]
    ∧ (runQueue env1 emptyState [taskA, taskB]).outcomes =
        [TaskOutcome.cbEmpty, TaskOutcome.cbResult "LOG" docG] :=
  ⟨by decide, by decide, by decide, by decide,
    claim1_tool_failure_isolated env1 taskA emptyState [taskB] "boom" (by decide) (by decide)
      (by decide) (by decide),
    by decide, by decide, by decide, by decide⟩

/-- C10: when the tool succeeds but the log file reads back as the empty
string, the task completes with the non-error `{result: '', doc}`
outcome, the finish observer appends nothing, and both Log Store
channels are unchanged — the log channel ends up exactly as in the
tool-failure path. -/
theorem claim10_empty_log_no_append (env : Env) (t : Task) (s : MState) (out : String)
    (hinst : env.installFails t.doc.name = false)
    (hdir : env.ensureDirFails (taskTempPath s t.doc) = false)
    (hcopy : env.copyFails t.file = false)
    (htool : env.toolResult (taskDistPath s t) (taskLogPath s t.doc) = Except.ok out)
    (hef : env.ensureFileFails (taskLogPath s t.doc) = false)
    (hread : env.readLogResult (taskLogPath s t.doc) = Except.ok "") :
    ∃ s', processQueue env t s = (s', TaskOutcome.cbResult "" t.doc)
      ∧ s'.logs = s.logs
      ∧ s'.errors = s.errors
      ∧ afterTask s' (TaskOutcome.cbResult "" t.doc) = s' := by
  have hdir' : env.ensureDirFails (taskTempPath (postInstallState t s) t.doc) = false := by
    rw [taskTempPath_postInstall]; exact hdir
  have htool' : env.toolResult (taskDistPath (postInstallState t s) t)
      (taskLogPath (postInstallState t s) t.doc) = Except.ok out := by
    rw [taskDistPath_postInstall, taskLogPath_postInstall]; exact htool
  have hef' : env.ensureFileFails (taskLogPath (postInstallState t s) t.doc) = false := by
    rw [taskLogPath_postInstall]; exact hef
  have hread' : env.readLogResult (taskLogPath (postInstallState t s) t.doc) =
      Except.ok "" := by
    rw [taskLogPath_postInstall]; exact hread
  have hres : processQueue env t s =
      (readState (postInstallState t s) t, TaskOutcome.cbResult "" t.doc) := by
    rw [processQueue_eq_body env t s hinst, processQueueBody_eq,
      bodyResult_readOk env t _ out "" hdir' hcopy htool' hef' hread']
  refine ⟨readState (postInstallState t s) t, hres, ?_, ?_, rfl⟩
  · rw [readState_logs, postInstallState_logs]
  · rw [readState_errors, postInstallState_errors]

/-- C10 witness: a concrete successful task with an empty log leaves the
log channel unchanged. -/
theorem claim10_empty_log_no_append_witness :
    env10.installFails taskA.doc.name = false
    ∧ env10.ensureDirFails (taskTempPath emptyState taskA.doc) = false
    ∧ env10.copyFails taskA.file = false
    ∧ env10.toolResult (taskDistPath emptyState taskA) (taskLogPath emptyState taskA.doc) =
        Except.ok "out"
    ∧ env10.ensureFileFails (taskLogPath emptyState taskA.doc) = false
    ∧ env10.readLogResult (taskLogPath emptyState taskA.doc) = Except.ok ""
    ∧ (∃ s', processQueue env10 taskA emptyState = (s', TaskOutcome.cbResult "" taskA.doc)
        ∧ s'.logs = emptyState.logs
        ∧ s'.errors = emptyState.errors
        ∧ afterTask s' (TaskOutcome.cbResult "" taskA.doc) = s')
    ∧ (runQueue env10 emptyState [taskA]).state.logs = [] :=
  ⟨by decide, by decide, by decide, by decide, by decide, by decide,
    claim10_empty_log_no_append env10 taskA emptyState "out" (by decide) (by decide) (by decide)
      (by decide) (by decide) (by decide),
    by decide⟩

/- ### Claim C6 -/

theorem touchedState_logs (s : MState) (t : Task) : (touchedState s t).logs = s.logs := by
  simp only [touchedState]
  exact tooledState_logs s t

/-- The processor body never appends to the Log Store's log channel. -/
theorem bodyResult_logs (env : Env) (t : Task) (s : MState) :
    (bodyResult env t s).1.logs = s.logs := by
  by_cases h1 : env.ensureDirFails (taskTempPath s t.doc) = true
  · rw [bodyResult_dirFail env t s h1]
    exact wsState_logs s t.doc
  · rw [Bool.not_eq_true] at h1
    by_cases h2 : env.copyFails t.file = true
    · rw [bodyResult_copyFail env t s h1 h2]
      exact copiedState_logs s t.doc t.file
    · rw [Bool.not_eq_true] at h2
      cases h3 : env.toolResult (taskDistPath s t) (taskLogPath s t.doc) with
      | error e =>
        rw [bodyResult_toolFail env t s e h1 h2 h3]
        simp only [addError]
        exact tooledState_logs s t
      | ok out =>
        by_cases h4 : env.ensureFileFails (taskLogPath s t.doc) = true
        · rw [bodyResult_ensureFileFail env t s out h1 h2 h3 h4]
          exact touchedState_logs s t
        · rw [Bool.not_eq_true] at h4
          cases h5 : env.readLogResult (taskLogPath s t.doc) with
          | error e =>
            rw [bodyResult_readFail env t s out e h1 h2 h3 h4 h5]
            exact readState_logs s t
          | ok c =>
            rw [bodyResult_readOk env t s out c h1 h2 h3 h4 h5]
            exact readState_logs s t

/-- The processor itself never appends to the log channel; only the
finish observer does. -/
theorem processQueue_logs (env : Env) (t : Task) (s : MState) :
    (processQueue env t s).1.logs = s.logs := by
  unfold processQueue
  by_cases hc : s.installedDependencies.contains t.doc.name = true
  · rw [if_pos hc, processQueueBody_eq]
    exact bodyResult_logs env t s
  · rw [if_neg hc]
    by_cases hf : env.installFails t.doc.name = true
    · rw [if_pos hf]
    · rw [if_neg hf, processQueueBody_eq, bodyResult_logs]

theorem afterTask_logs (s : MState) (o : TaskOutcome) :
    (afterTask s o).logs = s.logs ++ (outcomeLog o).toList := by
  cases o with
  | cbError e => simp [afterTask, queueFailedHandler, outcomeLog]
  | cbEmpty => simp [afterTask, queueFinishHandler, outcomeLog]
  | thrown e => simp [afterTask, outcomeLog]
  | cbResult r doc =>
    by_cases hr : r = ""
    · simp [afterTask, queueFinishHandler, outcomeLog, hr]
    · simp [afterTask, queueFinishHandler, outcomeLog, hr, addLog]

theorem isThrown_shape (o : TaskOutcome) (h : o.isThrown = true) :
    ∃ e, o = TaskOutcome.thrown e := by
  cases o with
  | thrown e => exact ⟨e, rfl⟩
  | cbError e => exact absurd h (by simp [TaskOutcome.isThrown])
  | cbEmpty => exact absurd h (by simp [TaskOutcome.isThrown])
  | cbResult r d => exact absurd h (by simp [TaskOutcome.isThrown])

/-- C6: over any run of the single-worker queue, the log channel grows
by exactly the finish-observer entries of the produced outcomes, in
outcome order — and the outcome list is in push order by construction,
so successful-log appends happen in enqueue order. -/
theorem claim6_log_append_order (env : Env) (s : MState) (ts : List Task) :
    (runTasks env s ts).state.logs =
      s.logs ++ (runTasks env s ts).outcomes.filterMap outcomeLog := by
  induction ts generalizing s with
  | nil => simp [runTasks]
  | cons t ts ih =>
    simp only [runTasks]
    by_cases ht : (processQueue env t s).2.isThrown = true
    · rw [if_pos ht]
      obtain ⟨e, he⟩ := isThrown_shape _ ht
      simp only [he, List.filterMap]
      simp [processQueue_logs env t s, ← he, outcomeLog, he]
    · rw [if_neg ht]
      simp only [ih]
      rw [afterTask_logs, processQueue_logs env t s]
      cases ho : outcomeLog (processQueue env t s).2 with
      | none => simp [List.filterMap_cons, ho]
      | some x => simp [List.filterMap_cons, ho]

/- ### Claim C4 -/

theorem afterTask_installed (s : MState) (o : TaskOutcome) :
    (afterTask s o).installedDependencies = s.installedDependencies := by
  cases o with
  | cbError e => rfl
  | cbEmpty => rfl
  | thrown e => rfl
  | cbResult r doc =>
    by_cases hr : r = ""
    · simp [afterTask, queueFinishHandler, hr]
    · simp [afterTask, queueFinishHandler, hr, addLog]

theorem afterTask_install_filter (s : MState) (o : TaskOutcome) :
    (afterTask s o).trace.filter Event.isInstallCall =
      s.trace.filter Event.isInstallCall := by
  cases o with
  | cbError e =>
    show (s.trace ++ [Event.fatalEv]).filter Event.isInstallCall = _
    exact filter_append_nil _ _ (by intro e he; rw [List.mem_singleton.mp he]; rfl)
  | cbEmpty => rfl
  | thrown e => rfl
  | cbResult r doc =>
    by_cases hr : r = ""
    · simp [afterTask, queueFinishHandler, hr]
    · simp only [afterTask, queueFinishHandler, hr, if_neg hr, addLog]
      exact filter_append_nil _ _ (by intro e he; rw [List.mem_singleton.mp he]; rfl)

/-- The first task of a not-yet-installed group makes exactly one
install call and records the group as installed. -/
theorem processQueue_first_install (env : Env) (t : Task) (s : MState)
    (hnotin : s.installedDependencies.contains t.doc.name = false)
    (hok : env.installFails t.doc.name = false) :
    (processQueue env t s).1.trace.filter Event.isInstallCall =
      s.trace.filter Event.isInstallCall ++ [Event.installCall t.doc.name]
    ∧ (processQueue env t s).1.installedDependencies.contains t.doc.name = true := by
  have hpi : postInstallState t s =
      { s with installedDependencies := s.installedDependencies ++ [t.doc.name],
               trace := s.trace ++ [Event.installCall t.doc.name] } := by
    unfold postInstallState
    rw [if_neg (show ¬s.installedDependencies.contains t.doc.name = true by
      rw [hnotin]; exact Bool.false_ne_true)]
  rw [processQueue_eq_body env t s hok, processQueueBody_eq]
  obtain ⟨δ, hδ, hδe⟩ := bodyResult_no_install_no_addLog env t (postInstallState t s)
  constructor
  · rw [hδ, filter_append_nil _ _ (fun e he => (hδe e he).2), hpi]
    show (s.trace ++ [Event.installCall t.doc.name]).filter Event.isInstallCall = _
    rw [List.filter_append]
    rfl
  · rw [bodyResult_installed, hpi]
    show (s.installedDependencies ++ [t.doc.name]).contains t.doc.name = true
    exact List.elem_eq_true_of_mem
      (List.mem_append_right _ (List.mem_singleton_self _))

theorem bodyResult_not_thrown (env : Env) (t : Task) (s : MState) :
    (bodyResult env t s).2.isThrown = false := by
  by_cases h1 : env.ensureDirFails (taskTempPath s t.doc) = true
  · rw [bodyResult_dirFail env t s h1]; rfl
  · rw [Bool.not_eq_true] at h1
    by_cases h2 : env.copyFails t.file = true
    · rw [bodyResult_copyFail env t s h1 h2]; rfl
    · rw [Bool.not_eq_true] at h2
      cases h3 : env.toolResult (taskDistPath s t) (taskLogPath s t.doc) with
      | error e => rw [bodyResult_toolFail env t s e h1 h2 h3]; rfl
      | ok out =>
        by_cases h4 : env.ensureFileFails (taskLogPath s t.doc) = true
        · rw [bodyResult_ensureFileFail env t s out h1 h2 h3 h4]; rfl
        · rw [Bool.not_eq_true] at h4
          cases h5 : env.readLogResult (taskLogPath s t.doc) with
          | error e => rw [bodyResult_readFail env t s out e h1 h2 h3 h4 h5]; rfl
          | ok c => rw [bodyResult_readOk env t s out c h1 h2 h3 h4 h5]; rfl

/-- Once the group is recorded as installed, a whole same-group run adds
no further install call. -/
theorem runTasks_no_install (env : Env) (g : String) (s : MState) (ts : List Task)
    (hg : ∀ t ∈ ts, t.doc.name = g)
    (hmem : s.installedDependencies.contains g = true) :
    (runTasks env s ts).state.trace.filter Event.isInstallCall =
      s.trace.filter Event.isInstallCall
    ∧ (runTasks env s ts).state.installedDependencies.contains g = true := by
  induction ts generalizing s with
  | nil => exact ⟨rfl, hmem⟩
  | cons t ts ih =>
    have hname : t.doc.name = g := hg t (List.mem_cons_self t ts)
    have hmem' : s.installedDependencies.contains t.doc.name = true := by
      rw [hname]; exact hmem
    obtain ⟨hfil, hinst⟩ := processQueue_skip_install env t s hmem'
    simp only [runTasks]
    by_cases ht : (processQueue env t s).2.isThrown = true
    · rw [if_pos ht]
      refine ⟨hfil, ?_⟩
      rw [hinst, ← hname]
      exact hmem'
    · rw [if_neg ht]
      have hmem'' : (afterTask (processQueue env t s).1
          (processQueue env t s).2).installedDependencies.contains g = true := by
        rw [afterTask_installed, hinst, ← hname]
        exact hmem'
      obtain ⟨ih1, ih2⟩ := ih (afterTask (processQueue env t s).1 (processQueue env t s).2)
        (fun x hx => hg x (List.mem_cons_of_mem t hx)) hmem''
      exact ⟨by rw [ih1, afterTask_install_filter, hfil], ih2⟩

theorem removeTempFolders_install_filter (env : Env) (ps : List String) (s : MState) :
    (removeTempFolders env s ps).1.trace.filter Event.isInstallCall =
      s.trace.filter Event.isInstallCall := by
  induction ps generalizing s with
  | nil => rfl
  | cons p ps ih =>
    simp only [removeTempFolders]
    by_cases hf : env.removeFails p = true
    · rw [if_pos hf]
      show ((s.trace ++ [Event.removeCall p]) ++ [Event.fatalEv]).filter Event.isInstallCall = _
      rw [List.append_assoc]
      exact filter_append_nil _ _ (by
        intro e he
        simp only [List.cons_append, List.nil_append, List.mem_cons,
          List.not_mem_nil, or_false] at he
        rcases he with rfl | rfl <;> rfl)
    · rw [if_neg hf, ih]
      show (s.trace ++ [Event.removeCall p]).filter Event.isInstallCall = _
      exact filter_append_nil _ _ (by intro e he; rw [List.mem_singleton.mp he]; rfl)

theorem queueEmptyHandler_install_filter (env : Env) (s : MState) :
    (queueEmptyHandler env s).trace.filter Event.isInstallCall =
      s.trace.filter Event.isInstallCall := by
  unfold queueEmptyHandler saveInFs
  set s₂ : MState := { s with trace := s.trace ++ [Event.disposeEv] ++ [Event.saveEv] } with hs₂
  have hpre : s₂.trace.filter Event.isInstallCall = s.trace.filter Event.isInstallCall := by
    rw [hs₂]
    show ((s.trace ++ [Event.disposeEv]) ++ [Event.saveEv]).filter Event.isInstallCall = _
    rw [List.append_assoc]
    exact filter_append_nil _ _ (by
      intro e he
      simp only [List.cons_append, List.nil_append, List.mem_cons,
        List.not_mem_nil, or_false] at he
      rcases he with rfl | rfl <;> rfl)
  by_cases hr : (removeTempFolders env s₂ (s₂.tempFolders.map (fun kv => kv.2.headD ""))).2 = true
  · rw [if_pos hr, removeTempFolders_install_filter, hpre]
  · rw [if_neg hr]
    show ((removeTempFolders env s₂ _).1.trace ++ [Event.parseAllEv]).filter Event.isInstallCall = _
    rw [filter_append_nil _ _ (by intro e he; rw [List.mem_singleton.mp he]; rfl),
      removeTempFolders_install_filter, hpre]

/-- C4: for N ≥ 1 same-group tasks pushed for a group not yet installed,
the whole run (drain plus completion handler) makes exactly one install
call — appended by the first task — and the group stays recorded as
installed. -/
theorem claim4_install_once (env : Env) (g : String) (s : MState) (ts : List Task)
    (hg : ∀ t ∈ ts, t.doc.name = g) (hne : ts ≠ [])
    (hnotin : s.installedDependencies.contains g = false)
    (hok : env.installFails g = false) :
    (runQueue env s ts).state.trace.filter Event.isInstallCall =
      s.trace.filter Event.isInstallCall ++ [Event.installCall g]
    ∧ (runTasks env s ts).state.installedDependencies.contains g = true := by
  cases ts with
  | nil => exact absurd rfl hne
  | cons t ts =>
    have hname : t.doc.name = g := hg t (List.mem_cons_self t ts)
    have hnotin' : s.installedDependencies.contains t.doc.name = false := by
      rw [hname]; exact hnotin
    have hok' : env.installFails t.doc.name = false := by rw [hname]; exact hok
    have hth : (processQueue env t s).2.isThrown = false := by
      rw [processQueue_eq_body env t s hok', processQueueBody_eq]
      exact bodyResult_not_thrown env t _
    obtain ⟨hfil, hinst⟩ := processQueue_first_install env t s hnotin' hok'
    have hmem'' : (afterTask (processQueue env t s).1
        (processQueue env t s).2).installedDependencies.contains g = true := by
      rw [afterTask_installed, ← hname]
      exact hinst
    obtain ⟨hrest, hrest2⟩ := runTasks_no_install env g
      (afterTask (processQueue env t s).1 (processQueue env t s).2) ts
      (fun x hx => hg x (List.mem_cons_of_mem t hx)) hmem''
    have hrt : (runTasks env s (t :: ts)).state.trace.filter Event.isInstallCall =
        s.trace.filter Event.isInstallCall ++ [Event.installCall g]
        ∧ (runTasks env s (t :: ts)).state.installedDependencies.contains g = true := by
      simp only [runTasks]
      rw [if_neg (show ¬(processQueue env t s).2.isThrown = true from by
        rw [hth]; exact Bool.false_ne_true)]
      refine ⟨?_, hrest2⟩
      rw [hrest, afterTask_install_filter, hfil, hname]
    refine ⟨?_, hrt.2⟩
    unfold runQueue
    by_cases hd : (runTasks env s (t :: ts)).drained = true
    · rw [if_pos hd]
      show (queueEmptyHandler env (runTasks env s (t :: ts)).state).trace.filter
          Event.isInstallCall = _
      rw [queueEmptyHandler_install_filter]
      exact hrt.1
    · rw [if_neg hd]
      exact hrt.1

/-- C4 witness: two tasks of the same group, one install call in the
full run's trace. -/
theorem claim4_install_once_witness :
    (∀ t ∈ [taskA, taskB], t.doc.name = "G")
    ∧ ([taskA, taskB] ≠ [])
    ∧ emptyState.installedDependencies.contains "G" = false
    ∧ env1.installFails "G" = false
    ∧ ((runQueue env1 emptyState [taskA, taskB]).state.trace.filter Event.isInstallCall =
        emptyState.trace.filter Event.isInstallCall ++ [Event.installCall "G"]
      ∧ (runTasks env1 emptyState [taskA, taskB]).state.installedDependencies.contains
          "G" = true) :=
  ⟨by decide, by decide, by decide, by decide,
    claim4_install_once env1 "G" emptyState [taskA, taskB] (by decide) (by decide)
      (by decide) (by decide)⟩

/- ### Claim C3 -/

/-- If no removal fails, the removal loop returns no-throw, removes from
the model filesystem exactly the listed paths, records one removal call
per listed path in order, and leaves the Log Store alone. -/
theorem removeTempFolders_ok (env : Env) (ps : List String) (s : MState)
    (h : ∀ p ∈ ps, env.removeFails p = false) :
    (removeTempFolders env s ps).2 = false
    ∧ (∀ d, d ∈ (removeTempFolders env s ps).1.dirs ↔ d ∈ s.dirs ∧ d ∉ ps)
    ∧ (removeTempFolders env s ps).1.trace = s.trace ++ ps.map Event.removeCall
    ∧ (removeTempFolders env s ps).1.logs = s.logs
    ∧ (removeTempFolders env s ps).1.errors = s.errors := by
  induction ps generalizing s with
  | nil => exact ⟨rfl, by simp [removeTempFolders], by simp [removeTempFolders], rfl, rfl⟩
  | cons p ps ih =>
    have hp : env.removeFails p = false := h p (List.mem_cons_self p ps)
    have hrest : ∀ q ∈ ps, env.removeFails q = false :=
      fun q hq => h q (List.mem_cons_of_mem p hq)
    simp only [removeTempFolders]
    rw [if_neg (show ¬env.removeFails p = true from by
      rw [hp]; exact Bool.false_ne_true)]
    obtain ⟨ih1, ih2, ih3, ih4, ih5⟩ := ih _ hrest
    refine ⟨ih1, ?_, ?_, ih4, ih5⟩
    · intro d
      rw [ih2 d]
      simp only [List.filter, List.mem_filter]
      constructor
      · rintro ⟨⟨hd, hne⟩, hnp⟩
        refine ⟨hd, ?_⟩
        simp only [List.mem_cons, not_or]
        exact ⟨by simpa using hne, hnp⟩
      · rintro ⟨hd, hnp⟩
        simp only [List.mem_cons, not_or] at hnp
        exact ⟨⟨hd, by simpa using hnp.1⟩, hnp.2⟩
    · rw [ih3]
      show (s.trace ++ [Event.removeCall p]) ++ ps.map Event.removeCall = _
      rw [List.append_assoc]
      rfl

/-- When every removal before position `|ok|` succeeds and the removal
at that position fails, the loop stops there: it rethrows as fatal after
recording the successful removals and the failing call, in order. -/
theorem removeTempFolders_fail (env : Env) (ok : List String) (p : String)
    (rest : List String) (s : MState)
    (hok : ∀ q ∈ ok, env.removeFails q = false)
    (hp : env.removeFails p = true) :
    (removeTempFolders env s (ok ++ p :: rest)).2 = true
    ∧ (removeTempFolders env s (ok ++ p :: rest)).1.trace =
        s.trace ++ ok.map Event.removeCall ++ [Event.removeCall p, Event.fatalEv] := by
  induction ok generalizing s with
  | nil =>
    simp only [List.nil_append, removeTempFolders]
    rw [if_pos hp]
    refine ⟨rfl, ?_⟩
    show (s.trace ++ [Event.removeCall p]) ++ [Event.fatalEv] = _
    simp
  | cons q ok ih =>
    have hq : env.removeFails q = false := hok q (List.mem_cons_self q ok)
    simp only [List.cons_append, removeTempFolders]
    rw [if_neg (show ¬env.removeFails q = true from by
      rw [hq]; exact Bool.false_ne_true)]
    show (removeTempFolders env
        { s with dirs := s.dirs.filter (fun d => d ≠ q),
                 trace := s.trace ++ [Event.removeCall q] } (ok ++ p :: rest)).2 = true
      ∧ (removeTempFolders env
        { s with dirs := s.dirs.filter (fun d => d ≠ q),
                 trace := s.trace ++ [Event.removeCall q] } (ok ++ p :: rest)).1.trace =
        s.trace ++ (q :: ok).map Event.removeCall ++ [Event.removeCall p, Event.fatalEv]
    have ihh := ih { s with dirs := s.dirs.filter (fun d => d ≠ q), trace := s.trace ++ [Event.removeCall q] } (fun x hx => hok x (List.mem_cons_of_mem q hx))
    obtain ⟨ih1, ih2⟩ := ihh
    refine ⟨ih1, ?_⟩
    rw [ih2]
    show (s.trace ++ [Event.removeCall q]) ++ ok.map Event.removeCall ++ _ = _
    simp [List.append_assoc]

/-- C3: on queue-empty with no removal failure, the handler disposes the
tool session, persists the Log Store, then attempts removal of exactly
the registered workspace paths in registration order — a directory
survives iff it was not registered — and runs the post-processor last;
and when removing the first registered path fails, the error is
escalated as fatal and the post-processor never runs. -/
theorem claim3_cleanup_exact (env : Env) (s : MState) :
    ((∀ p ∈ s.tempFolders.map (fun kv => kv.2.headD ""), env.removeFails p = false) →
      (∀ d, d ∈ (queueEmptyHandler env s).dirs ↔
          d ∈ s.dirs ∧ d ∉ s.tempFolders.map (fun kv => kv.2.headD ""))
      ∧ (queueEmptyHandler env s).trace =
          s.trace ++ [Event.disposeEv, Event.saveEv]
            ++ (s.tempFolders.map (fun kv => kv.2.headD "")).map Event.removeCall
            ++ [Event.parseAllEv]
      ∧ (queueEmptyHandler env s).logs = s.logs
      ∧ (queueEmptyHandler env s).errors = s.errors)
    ∧ (∀ ok p rest, s.tempFolders.map (fun kv => kv.2.headD "") = ok ++ p :: rest →
        (∀ q ∈ ok, env.removeFails q = false) →
        env.removeFails p = true →
        (queueEmptyHandler env s).trace =
          s.trace ++ [Event.disposeEv, Event.saveEv] ++ ok.map Event.removeCall
            ++ [Event.removeCall p, Event.fatalEv]
        ∧ Event.parseAllEv ∉ ([Event.disposeEv, Event.saveEv]
            ++ ok.map Event.removeCall ++ [Event.removeCall p, Event.fatalEv])) := by
  constructor
  · intro h
    simp only [queueEmptyHandler, saveInFs]
    obtain ⟨h1, h2, h3, h4, h5⟩ := removeTempFolders_ok env
      (s.tempFolders.map (fun kv => kv.2.headD ""))
      { s with trace := s.trace ++ [Event.disposeEv] ++ [Event.saveEv] } h
    rw [if_neg (show ¬(removeTempFolders env
        { s with trace := s.trace ++ [Event.disposeEv] ++ [Event.saveEv] }
        (s.tempFolders.map (fun kv => kv.2.headD ""))).2 = true from by
      rw [h1]; exact Bool.false_ne_true)]
    refine ⟨fun d => h2 d, ?_, h4, h5⟩
    show (removeTempFolders env _ _).1.trace ++ [Event.parseAllEv] = _
    rw [h3]
    show (s.trace ++ [Event.disposeEv] ++ [Event.saveEv])
        ++ (s.tempFolders.map (fun kv => kv.2.headD "")).map Event.removeCall
        ++ [Event.parseAllEv] = _
    simp [List.append_assoc]
  · intro ok p rest hreg hok hfail
    simp only [queueEmptyHandler, saveInFs]
    rw [hreg]
    obtain ⟨hf1, hf2⟩ := removeTempFolders_fail env ok p rest
      { s with trace := s.trace ++ [Event.disposeEv] ++ [Event.saveEv] } hok hfail
    rw [if_pos hf1]
    refine ⟨?_, ?_⟩
    · rw [hf2]
      show (s.trace ++ [Event.disposeEv] ++ [Event.saveEv]) ++ ok.map Event.removeCall
          ++ [Event.removeCall p, Event.fatalEv] = _
      simp [List.append_assoc]
    · intro hmem
      rcases List.mem_append.mp hmem with hmem | hmem
      · rcases List.mem_append.mp hmem with hmem | hmem
        · simp at hmem
        · obtain ⟨q, -, hq⟩ := List.mem_map.mp hmem
          exact Event.noConfusion hq
      · simp at hmem

/-- C3 witness: cleanup removes the registered workspace, keeps the
unrelated directory, and fires dispose, save, removal, post-processing
in that order; and in a two-workspace state whose second removal fails,
the failing removal (not the first) is escalated as fatal and the
post-processor is skipped. -/
theorem claim3_cleanup_exact_witness :
    ((∀ p ∈ stateC3.tempFolders.map (fun kv => kv.2.headD ""),
        env3.removeFails p = false) →
      (∀ d, d ∈ (queueEmptyHandler env3 stateC3).dirs ↔
          d ∈ stateC3.dirs ∧ d ∉ stateC3.tempFolders.map (fun kv => kv.2.headD ""))
      ∧ (queueEmptyHandler env3 stateC3).trace =
          stateC3.trace ++ [Event.disposeEv, Event.saveEv]
            ++ (stateC3.tempFolders.map (fun kv => kv.2.headD "")).map Event.removeCall
            ++ [Event.parseAllEv]
      ∧ (queueEmptyHandler env3 stateC3).logs = stateC3.logs
      ∧ (queueEmptyHandler env3 stateC3).errors = stateC3.errors)
    ∧ (queueEmptyHandler env3 stateC3).dirs = ["unrelated"]
    ∧ stateC3b.tempFolders.map (fun kv => kv.2.headD "") = ["p\\id0"] ++ "q\\id1" :: []
    ∧ (∀ q ∈ (["p\\id0"] : List String), env3b.removeFails q = false)
    ∧ env3b.removeFails "q\\id1" = true
    ∧ ((queueEmptyHandler env3b stateC3b).trace =
        stateC3b.trace ++ [Event.disposeEv, Event.saveEv]
          ++ (["p\\id0"] : List String).map Event.removeCall
          ++ [Event.removeCall "q\\id1", Event.fatalEv]
      ∧ Event.parseAllEv ∉ ([Event.disposeEv, Event.saveEv]
          ++ (["p\\id0"] : List String).map Event.removeCall
          ++ [Event.removeCall "q\\id1", Event.fatalEv])) :=
  ⟨(claim3_cleanup_exact env3 stateC3).1, by decide, by decide, by decide, by decide,
    (claim3_cleanup_exact env3b stateC3b).2 ["p\\id0"] "q\\id1" []
      (by decide) (by decide) (by decide)⟩

/- ### Claim C5: supporting exact characterizations -/

theorem addToAssoc_of_none (m : List (String × List String)) (name path : String)
    (h : m.lookup name = none) : addToAssoc m name path = m ++ [(name, [path])] := by
  induction m with
  | nil => rfl
  | cons kv rest ih =>
    obtain ⟨k, v⟩ := kv
    by_cases hk : k = name
    · subst hk
      simp [List.lookup_cons] at h
    · have hne : (name == k) = false := by
        simp only [beq_eq_false_iff_ne, ne_eq]
        exact fun hh => hk hh.symm
      simp only [List.lookup_cons, hne] at h
      simp only [addToAssoc, if_neg hk, List.cons_append, List.cons.injEq, true_and]
      exact ih h

theorem lookup_append_single_of_none (m : List (String × List String))
    (name : String) (v : List String) (h : m.lookup name = none) :
    (m ++ [(name, v)]).lookup name = some v := by
  induction m with
  | nil => simp [List.lookup_cons]
  | cons kv rest ih =>
    obtain ⟨k, v'⟩ := kv
    by_cases hk : (name == k) = true
    · simp only [List.lookup_cons, hk] at h
      exact absurd h (by simp)
    · have hne : (name == k) = false := by
        rw [Bool.not_eq_true] at hk
        exact hk
      simp only [List.lookup_cons, hne] at h
      simp only [List.cons_append, List.lookup_cons, hne]
      exact ih h

theorem pathState_trace_exact (s : MState) (doc : Doc) :
    (pathState s doc).trace = s.trace
      ++ (if (s.tempFolders.lookup doc.name).isSome then []
          else [Event.addTempFolderEv doc.name (taskTempPath s doc)]) := by
  simp only [pathState]
  cases hlk : s.tempFolders.lookup doc.name with
  | some paths =>
    rw [getTempFolderName_of_some s doc paths hlk]
    simp
  | none =>
    rw [getTempFolderName_of_none s doc hlk]
    simp only [Option.isSome_none, Bool.false_eq_true, if_false]
    unfold taskTempPath
    rw [hlk]

theorem pathState_tempFolders_exact (s : MState) (doc : Doc) :
    (pathState s doc).tempFolders =
      if (s.tempFolders.lookup doc.name).isSome then s.tempFolders
      else s.tempFolders ++ [(doc.name, [taskTempPath s doc])] := by
  simp only [pathState]
  cases hlk : s.tempFolders.lookup doc.name with
  | some paths =>
    rw [getTempFolderName_of_some s doc paths hlk]
    simp
  | none =>
    rw [getTempFolderName_of_none s doc hlk]
    simp only [Option.isSome_none, Bool.false_eq_true, if_false]
    show addToAssoc s.tempFolders doc.name (doc.path ++ "\\" ++ shortId s.nextId) = _
    rw [addToAssoc_of_none _ _ _ hlk]
    unfold taskTempPath
    rw [hlk]

theorem copiedState_trace_exact (s : MState) (doc : Doc) (f : String) :
    (copiedState s doc f).trace = s.trace
      ++ (if (s.tempFolders.lookup doc.name).isSome then []
          else [Event.addTempFolderEv doc.name (taskTempPath s doc)])
      ++ [Event.ensureDirCall (taskTempPath s doc)]
      ++ (if taskTempPath s doc ∈ s.dirs then []
          else [Event.dirCreated (taskTempPath s doc)])
      ++ [Event.copyCall f] := by
  simp only [copiedState, mkdirState, wsState, pathState_dirs]
  by_cases hmem : taskTempPath s doc ∈ s.dirs
  · rw [if_pos hmem, if_pos hmem]
    simp [pathState_trace_exact]
  · rw [if_neg hmem, if_neg hmem]
    simp [pathState_trace_exact]

theorem copiedState_dirs (s : MState) (doc : Doc) (f : String) :
    (copiedState s doc f).dirs =
      s.dirs ++ (if taskTempPath s doc ∈ s.dirs then [] else [taskTempPath s doc]) := by
  simp only [copiedState, mkdirState, wsState, pathState_dirs]
  by_cases hmem : taskTempPath s doc ∈ s.dirs
  · simp [hmem, pathState_dirs]
  · simp [hmem, pathState_dirs]

theorem copiedState_tempFolders (s : MState) (doc : Doc) (f : String) :
    (copiedState s doc f).tempFolders = (pathState s doc).tempFolders := by
  simp only [copiedState, mkdirState, wsState]
  split <;> rfl

theorem wsState_dirs (s : MState) (doc : Doc) : (wsState s doc).dirs = s.dirs := by
  simp only [wsState]
  exact pathState_dirs s doc

theorem wsState_tempFolders (s : MState) (doc : Doc) :
    (wsState s doc).tempFolders = (pathState s doc).tempFolders := rfl

theorem wsState_trace_exact (s : MState) (doc : Doc) :
    (wsState s doc).trace = s.trace
      ++ (if (s.tempFolders.lookup doc.name).isSome then []
          else [Event.addTempFolderEv doc.name (taskTempPath s doc)])
      ++ [Event.ensureDirCall (taskTempPath s doc)] := by
  simp only [wsState]
  rw [pathState_trace_exact]

/-- Every branch that passes the `fs.ensureDir` check extends the
copied-state trace only with events that are not directory related and
keeps its filesystem and Log Store temp-folder map. -/
theorem bodyResult_after_copy (env : Env) (t : Task) (s : MState)
    (h1 : env.ensureDirFails (taskTempPath s t.doc) = false) :
    ∃ tail, (bodyResult env t s).1.trace = (copiedState s t.doc t.file).trace ++ tail
      ∧ (∀ e ∈ tail, e.isEnsureDirCall = false ∧ e.isDirCreated = false
          ∧ e.isAddTempFolderEv = false)
      ∧ (bodyResult env t s).1.dirs = (copiedState s t.doc t.file).dirs
      ∧ (bodyResult env t s).1.tempFolders = (copiedState s t.doc t.file).tempFolders := by
  by_cases h2 : env.copyFails t.file = true
  · rw [bodyResult_copyFail env t s h1 h2]
    exact ⟨[], by simp, by simp, rfl, rfl⟩
  · rw [Bool.not_eq_true] at h2
    cases h3 : env.toolResult (taskDistPath s t) (taskLogPath s t.doc) with
    | error e =>
      rw [bodyResult_toolFail env t s e h1 h2 h3]
      refine ⟨[Event.toolCall (taskDistPath s t) (taskLogPath s t.doc),
        Event.addErrorEv t.doc.name], ?_, ?_, rfl, rfl⟩
      · simp [addError, tooledState]
      · intro e he
        simp only [List.mem_cons, List.not_mem_nil, or_false] at he
        rcases he with rfl | rfl <;> exact ⟨rfl, rfl, rfl⟩
    | ok out =>
      by_cases h4 : env.ensureFileFails (taskLogPath s t.doc) = true
      · rw [bodyResult_ensureFileFail env t s out h1 h2 h3 h4]
        refine ⟨[Event.toolCall (taskDistPath s t) (taskLogPath s t.doc),
          Event.ensureFileCall (taskLogPath s t.doc)], ?_, ?_, rfl, rfl⟩
        · simp [touchedState, tooledState]
        · intro e he
          simp only [List.mem_cons, List.not_mem_nil, or_false] at he
          rcases he with rfl | rfl <;> exact ⟨rfl, rfl, rfl⟩
      · rw [Bool.not_eq_true] at h4
        have htail : (readState s t).trace = (copiedState s t.doc t.file).trace
            ++ [Event.toolCall (taskDistPath s t) (taskLogPath s t.doc),
              Event.ensureFileCall (taskLogPath s t.doc),
              Event.logReadCall (taskLogPath s t.doc)] := by
          simp [readState, tooledState]
        have hmem : ∀ e ∈ [Event.toolCall (taskDistPath s t) (taskLogPath s t.doc),
            Event.ensureFileCall (taskLogPath s t.doc),
            Event.logReadCall (taskLogPath s t.doc)],
            e.isEnsureDirCall = false ∧ e.isDirCreated = false
              ∧ e.isAddTempFolderEv = false := by
          intro e he
          simp only [List.mem_cons, List.not_mem_nil, or_false] at he
          rcases he with rfl | rfl | rfl <;> exact ⟨rfl, rfl, rfl⟩
        cases h5 : env.readLogResult (taskLogPath s t.doc) with
        | error e =>
          rw [bodyResult_readFail env t s out e h1 h2 h3 h4 h5]
          exact ⟨_, htail, hmem, rfl, rfl⟩
        | ok c =>
          rw [bodyResult_readOk env t s out c h1 h2 h3 h4 h5]
          exact ⟨_, htail, hmem, rfl, rfl⟩

/-- Across every branch, a non-stalling task invokes the
directory-creation primitive exactly once, on its workspace path; any
actual directory creation is of that path and happens at most once, only
when the path is missing; and the task registers the workspace only when
it was not registered. -/
theorem processQueue_ws_events (env : Env) (t : Task) (s : MState)
    (hinstOk : env.installFails t.doc.name = false) :
    ∃ δ, (processQueue env t s).1.trace = s.trace ++ δ
      ∧ δ.filter Event.isEnsureDirCall = [Event.ensureDirCall (taskTempPath s t.doc)]
      ∧ (∀ p, Event.dirCreated p ∈ δ → p = taskTempPath s t.doc)
      ∧ (δ.filter Event.isDirCreated).length ≤ 1
      ∧ (taskTempPath s t.doc ∈ s.dirs → (δ.filter Event.isDirCreated).length = 0)
      ∧ (∀ d ∈ s.dirs, d ∈ (processQueue env t s).1.dirs)
      ∧ ((δ.filter Event.isDirCreated).length = 1 →
          taskTempPath s t.doc ∈ (processQueue env t s).1.dirs)
      ∧ (processQueue env t s).1.tempFolders =
          (if (s.tempFolders.lookup t.doc.name).isSome then s.tempFolders
           else s.tempFolders ++ [(t.doc.name, [taskTempPath s t.doc])]) := by
  obtain ⟨δᵢ, hδᵢ, hδᵢe⟩ := postInstallState_trace t s
  have hδᵢ2 : ∀ e ∈ δᵢ, e.isEnsureDirCall = false ∧ e.isDirCreated = false
      ∧ e.isAddTempFolderEv = false := by
    intro e he
    rw [hδᵢe e he]
    exact ⟨rfl, rfl, rfl⟩
  have htp := taskTempPath_postInstall t s
  have hdirs := postInstallState_dirs t s
  have htf := postInstallState_tempFolders t s
  rw [processQueue_eq_body env t s hinstOk, processQueueBody_eq]
  have hpathtf : (pathState (postInstallState t s) t.doc).tempFolders =
      (if (s.tempFolders.lookup t.doc.name).isSome then s.tempFolders
       else s.tempFolders ++ [(t.doc.name, [taskTempPath s t.doc])]) := by
    rw [pathState_tempFolders_exact, htf, htp]
  by_cases h1 : env.ensureDirFails (taskTempPath s t.doc) = true
  · have h1' : env.ensureDirFails (taskTempPath (postInstallState t s) t.doc) = true := by
      rw [htp]; exact h1
    rw [bodyResult_dirFail env t _ h1']
    refine ⟨δᵢ ++ ((if (s.tempFolders.lookup t.doc.name).isSome then []
        else [Event.addTempFolderEv t.doc.name (taskTempPath s t.doc)])
        ++ [Event.ensureDirCall (taskTempPath s t.doc)]), ?_, ?_, ?_, ?_, ?_, ?_, ?_, ?_⟩
    · rw [wsState_trace_exact, htp, htf, hδᵢ]
      simp [List.append_assoc]
    · rw [List.filter_append, List.filter_eq_nil_iff.mpr
        (fun e he => by simp [(hδᵢ2 e he).1]), List.filter_append]
      split
      · simp [List.filter, Event.isEnsureDirCall]
      · simp [List.filter, Event.isEnsureDirCall, Event.isAddTempFolderEv]
    · intro p hp
      rcases List.mem_append.mp hp with hp | hp
      · exact absurd (hδᵢe _ hp) (by simp)
      · rcases List.mem_append.mp hp with hp | hp
        · revert hp
          split
          · intro hp; exact absurd hp (List.not_mem_nil _)
          · intro hp; exact absurd (List.mem_singleton.mp hp) (by simp)
        · exact absurd (List.mem_singleton.mp hp) (by simp)
    · rw [List.filter_append, List.filter_eq_nil_iff.mpr
        (fun e he => by simp [(hδᵢ2 e he).2.1]), List.filter_append]
      split <;> simp [List.filter, Event.isDirCreated, Event.isAddTempFolderEv,
        Event.isEnsureDirCall]
    · intro hmem
      rw [List.filter_append, List.filter_eq_nil_iff.mpr
        (fun e he => by simp [(hδᵢ2 e he).2.1]), List.filter_append]
      split <;> simp [List.filter, Event.isDirCreated]
    · intro d hd
      rw [wsState_dirs, hdirs]
      exact hd
    · intro hlen
      exfalso
      rw [List.filter_append, List.filter_eq_nil_iff.mpr
        (fun e he => by simp [(hδᵢ2 e he).2.1]), List.filter_append] at hlen
      revert hlen
      split <;> simp [List.filter, Event.isDirCreated, Event.isAddTempFolderEv,
        Event.isEnsureDirCall]
    · rw [wsState_tempFolders, hpathtf]
  · rw [Bool.not_eq_true] at h1
    have h1' : env.ensureDirFails (taskTempPath (postInstallState t s) t.doc) = false := by
      rw [htp]; exact h1
    obtain ⟨tail, htail, htaile, hbdirs, hbtf⟩ := bodyResult_after_copy env t _ h1'
    have hδF1 : δᵢ.filter Event.isEnsureDirCall = [] :=
      List.filter_eq_nil_iff.mpr (fun e he => by simp [(hδᵢ2 e he).1])
    have hδF2 : δᵢ.filter Event.isDirCreated = [] :=
      List.filter_eq_nil_iff.mpr (fun e he => by simp [(hδᵢ2 e he).2.1])
    have htF1 : tail.filter Event.isEnsureDirCall = [] :=
      List.filter_eq_nil_iff.mpr (fun e he => by simp [(htaile e he).1])
    have htF2 : tail.filter Event.isDirCreated = [] :=
      List.filter_eq_nil_iff.mpr (fun e he => by simp [(htaile e he).2.1])
    refine ⟨δᵢ ++ ((if (s.tempFolders.lookup t.doc.name).isSome then []
        else [Event.addTempFolderEv t.doc.name (taskTempPath s t.doc)])
        ++ [Event.ensureDirCall (taskTempPath s t.doc)]
        ++ (if taskTempPath s t.doc ∈ s.dirs then []
            else [Event.dirCreated (taskTempPath s t.doc)])
        ++ [Event.copyCall t.file] ++ tail), ?_, ?_, ?_, ?_, ?_, ?_, ?_, ?_⟩
    · rw [htail, copiedState_trace_exact, htp, htf, hdirs, hδᵢ]
      simp [List.append_assoc]
    · by_cases hlk : (s.tempFolders.lookup t.doc.name).isSome = true <;>
        by_cases hmem2 : taskTempPath s t.doc ∈ s.dirs <;>
          simp [hlk, hmem2, List.filter_append, hδF1, htF1, List.filter,
            Event.isEnsureDirCall, Event.isAddTempFolderEv, Event.isDirCreated]
    · intro p hp
      rcases List.mem_append.mp hp with hp | hp
      · exact absurd (hδᵢe _ hp) (by simp)
      · rcases List.mem_append.mp hp with hp | hp
        · rcases List.mem_append.mp hp with hp | hp
          · rcases List.mem_append.mp hp with hp | hp
            · rcases List.mem_append.mp hp with hp | hp
              · revert hp
                split
                · intro hp; exact absurd hp (List.not_mem_nil _)
                · intro hp; exact absurd (List.mem_singleton.mp hp) (by simp)
              · exact absurd (List.mem_singleton.mp hp) (by simp)
            · revert hp
              split
              · intro hp; exact absurd hp (List.not_mem_nil _)
              · intro hp
                have := List.mem_singleton.mp hp
                simpa using this
          · exact absurd (List.mem_singleton.mp hp) (by simp)
        · exact absurd (htaile _ hp).2.1 (by simp [Event.isDirCreated])
    · by_cases hlk : (s.tempFolders.lookup t.doc.name).isSome = true <;>
        by_cases hmem2 : taskTempPath s t.doc ∈ s.dirs <;>
          simp [hlk, hmem2, List.filter_append, hδF2, htF2, List.filter,
            Event.isEnsureDirCall, Event.isAddTempFolderEv, Event.isDirCreated]
    · intro hmem
      by_cases hlk : (s.tempFolders.lookup t.doc.name).isSome = true <;>
        simp [hlk, hmem, List.filter_append, hδF2, htF2, List.filter,
          Event.isEnsureDirCall, Event.isAddTempFolderEv, Event.isDirCreated]
    · intro d hd
      rw [hbdirs, copiedState_dirs, htp, hdirs]
      exact List.mem_append_left _ hd
    · intro hlen
      rw [hbdirs, copiedState_dirs, htp, hdirs]
      by_cases hmem : taskTempPath s t.doc ∈ s.dirs
      · exact List.mem_append_left _ hmem
      · rw [if_neg hmem]
        exact List.mem_append_right _ (List.mem_singleton_self _)
    · rw [hbtf, copiedState_tempFolders, hpathtf]

theorem afterTask_dirs (s : MState) (o : TaskOutcome) : (afterTask s o).dirs = s.dirs := by
  cases o with
  | cbError e => rfl
  | cbEmpty => rfl
  | thrown e => rfl
  | cbResult r doc =>
    by_cases hr : r = ""
    · simp [afterTask, queueFinishHandler, hr]
    · simp [afterTask, queueFinishHandler, hr, addLog]

theorem afterTask_tempFolders (s : MState) (o : TaskOutcome) :
    (afterTask s o).tempFolders = s.tempFolders := by
  cases o with
  | cbError e => rfl
  | cbEmpty => rfl
  | thrown e => rfl
  | cbResult r doc =>
    by_cases hr : r = ""
    · simp [afterTask, queueFinishHandler, hr]
    · simp [afterTask, queueFinishHandler, hr, addLog]

theorem afterTask_dirkinds (s : MState) (o : TaskOutcome) :
    ∃ δa, (afterTask s o).trace = s.trace ++ δa
      ∧ ∀ e ∈ δa, e.isEnsureDirCall = false ∧ e.isDirCreated = false := by
  cases o with
  | cbError e =>
    exact ⟨[Event.fatalEv], rfl,
      by intro e he; rw [List.mem_singleton.mp he]; exact ⟨rfl, rfl⟩⟩
  | cbEmpty => exact ⟨[], by simp [afterTask, queueFinishHandler], by simp⟩
  | thrown e => exact ⟨[], by simp [afterTask], by simp⟩
  | cbResult r doc =>
    by_cases hr : r = ""
    · exact ⟨[], by simp [afterTask, queueFinishHandler, hr], by simp⟩
    · refine ⟨[Event.addLogEv doc.name r], ?_, ?_⟩
      · simp [afterTask, queueFinishHandler, hr, addLog]
      · intro e he
        rw [List.mem_singleton.mp he]
        exact ⟨rfl, rfl⟩

theorem processQueue_not_thrown (env : Env) (t : Task) (s : MState)
    (hinstOk : env.installFails t.doc.name = false) :
    (processQueue env t s).2.isThrown = false := by
  rw [processQueue_eq_body env t s hinstOk, processQueueBody_eq]
  exact bodyResult_not_thrown env t _

theorem taskTempPath_of_lookup (σ : MState) (d : Doc) (thePath : String)
    (h : σ.tempFolders.lookup d.name = some [thePath]) :
    taskTempPath σ d = thePath := by
  unfold taskTempPath
  rw [h]
  rfl

/-- Steady phase for a registered group: every further same-group task
calls `ensureDir` on the registered path (one call per task), actual
creation happens at most once and only while the directory is missing,
and the registration map never changes. -/
theorem runTasks_ws_steady (env : Env) (d : Doc) (thePath : String) (s : MState)
    (ts : List Task)
    (hd : ∀ t ∈ ts, t.doc = d)
    (hlk : s.tempFolders.lookup d.name = some [thePath])
    (hinstOk : env.installFails d.name = false) :
    ∃ δ, (runTasks env s ts).state.trace = s.trace ++ δ
      ∧ δ.filter Event.isEnsureDirCall =
          List.replicate ts.length (Event.ensureDirCall thePath)
      ∧ (∀ p, Event.dirCreated p ∈ δ → p = thePath)
      ∧ (δ.filter Event.isDirCreated).length ≤ 1
      ∧ (thePath ∈ s.dirs → (δ.filter Event.isDirCreated).length = 0)
      ∧ (runTasks env s ts).state.tempFolders = s.tempFolders := by
  induction ts generalizing s with
  | nil =>
    exact ⟨[], by simp [runTasks], by simp [runTasks], by simp, by simp,
      fun _ => by simp, rfl⟩
  | cons t ts ih =>
    have htdoc : t.doc = d := hd t (List.mem_cons_self t ts)
    have htp : taskTempPath s t.doc = thePath := by
      rw [htdoc]
      exact taskTempPath_of_lookup s d thePath hlk
    have hinstOk' : env.installFails t.doc.name = false := by rw [htdoc]; exact hinstOk
    have hth : (processQueue env t s).2.isThrown = false :=
      processQueue_not_thrown env t s hinstOk'
    obtain ⟨δ₁, h₁tr, h₁ens, h₁mem, h₁le, h₁z, h₁mono, h₁one, h₁tf⟩ :=
      processQueue_ws_events env t s hinstOk'
    have h₁tf' : (processQueue env t s).1.tempFolders = s.tempFolders := by
      rw [h₁tf, htdoc, hlk]
      simp
    obtain ⟨δa, hatr, hae⟩ :=
      afterTask_dirkinds (processQueue env t s).1 (processQueue env t s).2
    have hσtf : (afterTask (processQueue env t s).1
        (processQueue env t s).2).tempFolders = s.tempFolders := by
      rw [afterTask_tempFolders, h₁tf']
    have hσlk : (afterTask (processQueue env t s).1
        (processQueue env t s).2).tempFolders.lookup d.name = some [thePath] := by
      rw [hσtf]; exact hlk
    obtain ⟨δ₃, h₃tr, h₃ens, h₃mem, h₃le, h₃z, h₃tf⟩ :=
      ih (afterTask (processQueue env t s).1 (processQueue env t s).2)
        (fun x hx => hd x (List.mem_cons_of_mem t hx)) hσlk
    have haF : δa.filter Event.isDirCreated = [] :=
      List.filter_eq_nil_iff.mpr (fun e he => by simp [(hae e he).2])
    have haFe : δa.filter Event.isEnsureDirCall = [] :=
      List.filter_eq_nil_iff.mpr (fun e he => by simp [(hae e he).1])
    have hruneq : runTasks env s (t :: ts) =
        RunResult.mk (runTasks env (afterTask (processQueue env t s).1
            (processQueue env t s).2) ts).state
          ((processQueue env t s).2 :: (runTasks env (afterTask (processQueue env t s).1
            (processQueue env t s).2) ts).outcomes)
          (runTasks env (afterTask (processQueue env t s).1
            (processQueue env t s).2) ts).drained := by
      simp only [runTasks]
      rw [if_neg (show ¬(processQueue env t s).2.isThrown = true from by
        rw [hth]; exact Bool.false_ne_true)]
    refine ⟨δ₁ ++ (δa ++ δ₃), ?_, ?_, ?_, ?_, ?_, ?_⟩
    · rw [hruneq]
      show (runTasks env _ ts).state.trace = _
      rw [h₃tr, hatr, h₁tr]
      simp [List.append_assoc]
    · rw [List.filter_append, List.filter_append, h₁ens, haFe, h₃ens, htp]
      simp [List.replicate_succ]
    · intro p hp
      rcases List.mem_append.mp hp with hp | hp
      · rw [h₁mem p hp, htp]
      · rcases List.mem_append.mp hp with hp | hp
        · exact absurd (hae _ hp).2 (by simp [Event.isDirCreated])
        · exact h₃mem p hp
    · rw [List.filter_append, List.filter_append, haF, List.length_append,
        List.length_append, List.length_nil]
      rcases Nat.le_one_iff_eq_zero_or_eq_one.mp h₁le with hc | hc
      · rw [hc]
        omega
      · have hmem3 : thePath ∈ (afterTask (processQueue env t s).1
            (processQueue env t s).2).dirs := by
          rw [afterTask_dirs, ← htp]
          exact h₁one hc
        rw [hc, h₃z hmem3]
    · intro hmem
      have hc1 : (δ₁.filter Event.isDirCreated).length = 0 := h₁z (by rw [htp]; exact hmem)
      have hmem3 : thePath ∈ (afterTask (processQueue env t s).1
          (processQueue env t s).2).dirs := by
        rw [afterTask_dirs]
        exact h₁mono thePath hmem
      rw [List.filter_append, List.filter_append, haF, List.length_append,
        List.length_append, List.length_nil, hc1, h₃z hmem3]
    · rw [hruneq]
      show (runTasks env _ ts).state.tempFolders = _
      rw [h₃tf, hσtf]

/-- C5 counterexample: in a concrete two-file run of one group the
directory-creation primitive (`fs.ensureDir`) is invoked twice — once per
file, inside `copyMdInTempFolder` — not once as the claim states; the
workspace path is nevertheless registered only once. -/
theorem claim5_single_mkdir_call_counterexample :
    ((runQueue env3 emptyState [taskA, taskB]).state.trace.filter
        Event.isEnsureDirCall).length = 2
    ∧ ¬(((runQueue env3 emptyState [taskA, taskB]).state.trace.filter
        Event.isEnsureDirCall).length = 1)
    ∧ (runQueue env3 emptyState [taskA, taskB]).state.tempFolders =
        [("G", ["p\\id0"])] := by
  refine ⟨by decide, ?_, by decide⟩
  intro h
  have h2 : ((runQueue env3 emptyState [taskA, taskB]).state.trace.filter
      Event.isEnsureDirCall).length = 2 := by decide
  rw [h] at h2
  exact absurd h2 (by decide)

/-- C5 as amended: for N same-group tasks starting from an unregistered
group, the workspace path is synthesized and registered exactly once,
the same path is used by every task's `ensureDir` invocation (N
invocations, one per file), and the directory is actually created at
most once. -/
theorem claim5_workspace_reuse_amended (env : Env) (d : Doc) (s : MState)
    (ts : List Task) (thePath : String)
    (hd : ∀ t ∈ ts, t.doc = d)
    (hreg : s.tempFolders.lookup d.name = none)
    (hinstOk : env.installFails d.name = false)
    (hpath : thePath = d.path ++ "\\" ++ shortId s.nextId) :
    (ts ≠ [] → (runTasks env s ts).state.tempFolders =
        s.tempFolders ++ [(d.name, [thePath])])
    ∧ (ts = [] → (runTasks env s ts).state.tempFolders = s.tempFolders)
    ∧ ∃ δ, (runTasks env s ts).state.trace = s.trace ++ δ
        ∧ δ.filter Event.isEnsureDirCall =
            List.replicate ts.length (Event.ensureDirCall thePath)
        ∧ (∀ p, Event.dirCreated p ∈ δ → p = thePath)
        ∧ (δ.filter Event.isDirCreated).length ≤ 1 := by
  cases ts with
  | nil =>
    exact ⟨fun h => absurd rfl h, fun _ => rfl,
      ⟨[], by simp [runTasks], by simp, by simp, by simp⟩⟩
  | cons t ts =>
    have htdoc : t.doc = d := hd t (List.mem_cons_self t ts)
    have htp : taskTempPath s t.doc = thePath := by
      rw [htdoc]
      unfold taskTempPath
      rw [hreg, hpath]
    have hinstOk' : env.installFails t.doc.name = false := by rw [htdoc]; exact hinstOk
    have hth : (processQueue env t s).2.isThrown = false :=
      processQueue_not_thrown env t s hinstOk'
    obtain ⟨δ₁, h₁tr, h₁ens, h₁mem, h₁le, h₁z, h₁mono, h₁one, h₁tf⟩ :=
      processQueue_ws_events env t s hinstOk'
    have h₁tf' : (processQueue env t s).1.tempFolders =
        s.tempFolders ++ [(d.name, [thePath])] := by
      rw [h₁tf, htdoc, hreg]
      simp [htp.symm, htdoc]
    obtain ⟨δa, hatr, hae⟩ :=
      afterTask_dirkinds (processQueue env t s).1 (processQueue env t s).2
    have hσtf : (afterTask (processQueue env t s).1
        (processQueue env t s).2).tempFolders = s.tempFolders ++ [(d.name, [thePath])] := by
      rw [afterTask_tempFolders, h₁tf']
    have hσlk : (afterTask (processQueue env t s).1
        (processQueue env t s).2).tempFolders.lookup d.name = some [thePath] := by
      rw [hσtf]
      exact lookup_append_single_of_none _ _ _ hreg
    obtain ⟨δ₃, h₃tr, h₃ens, h₃mem, h₃le, h₃z, h₃tf⟩ :=
      runTasks_ws_steady env d thePath
        (afterTask (processQueue env t s).1 (processQueue env t s).2) ts
        (fun x hx => hd x (List.mem_cons_of_mem t hx)) hσlk hinstOk
    have haF : δa.filter Event.isDirCreated = [] :=
      List.filter_eq_nil_iff.mpr (fun e he => by simp [(hae e he).2])
    have haFe : δa.filter Event.isEnsureDirCall = [] :=
      List.filter_eq_nil_iff.mpr (fun e he => by simp [(hae e he).1])
    have hruneq : runTasks env s (t :: ts) =
        RunResult.mk (runTasks env (afterTask (processQueue env t s).1
            (processQueue env t s).2) ts).state
          ((processQueue env t s).2 :: (runTasks env (afterTask (processQueue env t s).1
            (processQueue env t s).2) ts).outcomes)
          (runTasks env (afterTask (processQueue env t s).1
            (processQueue env t s).2) ts).drained := by
      simp only [runTasks]
      rw [if_neg (show ¬(processQueue env t s).2.isThrown = true from by
        rw [hth]; exact Bool.false_ne_true)]
    refine ⟨fun _ => ?_, fun h => absurd h (List.cons_ne_nil t ts), ?_⟩
    · rw [hruneq]
      show (runTasks env _ ts).state.tempFolders = _
      rw [h₃tf, hσtf]
    · refine ⟨δ₁ ++ (δa ++ δ₃), ?_, ?_, ?_, ?_⟩
      · rw [hruneq]
        show (runTasks env _ ts).state.trace = _
        rw [h₃tr, hatr, h₁tr]
        simp [List.append_assoc]
      · rw [List.filter_append, List.filter_append, h₁ens, haFe, h₃ens, htp]
        simp [List.replicate_succ]
      · intro p hp
        rcases List.mem_append.mp hp with hp | hp
        · rw [h₁mem p hp, htp]
        · rcases List.mem_append.mp hp with hp | hp
          · exact absurd (hae _ hp).2 (by simp [Event.isDirCreated])
          · exact h₃mem p hp
      · rw [List.filter_append, List.filter_append, haF, List.length_append,
          List.length_append, List.length_nil]
        rcases Nat.le_one_iff_eq_zero_or_eq_one.mp h₁le with hc | hc
        · rw [hc]
          omega
        · have hmem3 : thePath ∈ (afterTask (processQueue env t s).1
              (processQueue env t s).2).dirs := by
            rw [afterTask_dirs, ← htp]
            exact h₁one hc
          rw [hc, h₃z hmem3]

/-- C5 amended-claim witness at the concrete two-file run of the
counterexample. -/
theorem claim5_workspace_reuse_amended_witness :
    (∀ t ∈ [taskA, taskB], t.doc = docG)
    ∧ emptyState.tempFolders.lookup docG.name = none
    ∧ env3.installFails docG.name = false
    ∧ "p\\id0" = docG.path ++ "\\" ++ shortId emptyState.nextId
    ∧ (([taskA, taskB] : List Task) ≠ [] →
        (runTasks env3 emptyState [taskA, taskB]).state.tempFolders =
          emptyState.tempFolders ++ [(docG.name, ["p\\id0"])])
    ∧ (([taskA, taskB] : List Task) = [] →
        (runTasks env3 emptyState [taskA, taskB]).state.tempFolders =
          emptyState.tempFolders)
    ∧ ∃ δ, (runTasks env3 emptyState [taskA, taskB]).state.trace =
          emptyState.trace ++ δ
        ∧ δ.filter Event.isEnsureDirCall =
            List.replicate ([taskA, taskB] : List Task).length
              (Event.ensureDirCall "p\\id0")
        ∧ (∀ p, Event.dirCreated p ∈ δ → p = "p\\id0")
        ∧ (δ.filter Event.isDirCreated).length ≤ 1 := by
  have h := claim5_workspace_reuse_amended env3 docG emptyState [taskA, taskB]
    "p\\id0" (by decide) (by decide) (by decide) (by decide)
  exact ⟨by decide, by decide, by decide, by decide, h.1, h.2.1, h.2.2⟩

end MarkdownService
